import Mathlib

/-!
Verification of the ZOF (Zero Of Functions) root-finding solvers.

The repository has two Python files, `ZOF_CLI.py` and `app.py`, each containing
the same six iterative methods: bisection, regula falsi, secant, Newton-Raphson,
fixed-point iteration and modified secant.  We embed the numeric core of both
files shallowly in Lean: Python floats become exact rationals (ℚ), the function
evaluator (built externally by sympy) becomes an opaque total function ℚ → ℚ,
and Python exceptions become an `Except` error value.  Each Python `for i in
range(1, max_iter+1)` loop becomes a structurally recursive function on a fuel
argument equal to the number of remaining passes.

Python exceptions raised by the code are modelled by `PyErr`:
  * `invalidBracket`   — the `ValueError` raised by bisection / regula falsi
                         when `fa*fb > 0`;
  * `zeroDenominator`  — the `ZeroDivisionError` raised explicitly by the
                         secant and modified-secant methods;
  * `zeroDerivative`   — the `ZeroDivisionError` raised explicitly by
                         Newton-Raphson when `dfx == 0`;
  * `divisionByZero`   — an implicit Python `ZeroDivisionError` from the
                         unguarded division in regula falsi's interpolation;
  * `unboundLocal`     — the `UnboundLocalError` Python raises at the final
                         `return` when `max_iter < 1` (the loop body never ran,
                         so the returned locals are unbound);
  * `invalidParameters`— the error the spec's taxonomy reserves for
                         `tolerance ≤ 0` or `max_iterations ≤ 0`; no code path
                         in either file produces it.
-/

namespace ZOF

/-- Python exceptions (and the spec's error taxonomy) for the solver core. -/
inductive PyErr where
  | invalidBracket
  | zeroDenominator
  | zeroDerivative
  | divisionByZero
  | unboundLocal
  | invalidParameters
deriving DecidableEq

/-- One row of the bisection / regula-falsi iteration table:
`[i, a, b, c, fc, error]` as appended in the Python source. -/
structure BisRow where
  i : ℕ
  a : ℚ
  b : ℚ
  c : ℚ
  fc : ℚ
  err : ℚ
deriving DecidableEq

/-- One row of the secant iteration table: `[i, x0, x1, x2, f(x2), err]`. -/
structure SecRow where
  i : ℕ
  x0 : ℚ
  x1 : ℚ
  x2 : ℚ
  fx2 : ℚ
  err : ℚ
deriving DecidableEq

/-- One row of the Newton-Raphson table: `[i, x, fx, dfx, x_new, err]`. -/
structure NewtRow where
  i : ℕ
  x : ℚ
  fx : ℚ
  dfx : ℚ
  xnew : ℚ
  err : ℚ
deriving DecidableEq

/-- One row of the fixed-point table: `[i, x, x_new, err]`. -/
structure FpRow where
  i : ℕ
  x : ℚ
  xnew : ℚ
  err : ℚ
deriving DecidableEq

/-- One row of the modified-secant table: `[i, x, f_x, x_new, err]`. -/
structure ModRow where
  i : ℕ
  x : ℚ
  fx : ℚ
  xnew : ℚ
  err : ℚ
deriving DecidableEq

/-- The 4-tuple `(root, final_error, iterations_used, rows)` every Python
method returns. -/
structure Result (Row : Type) where
  root : ℚ
  finalErr : ℚ
  iters : ℕ
  rows : List Row
deriving DecidableEq

instance {ε α : Type} [DecidableEq ε] [DecidableEq α] : DecidableEq (Except ε α) :=
  fun x y =>
    match x, y with
    | .ok a, .ok b =>
      if h : a = b then .isTrue (by rw [h]) else .isFalse (by intro hc; cases hc; exact h rfl)
    | .error a, .error b =>
      if h : a = b then .isTrue (by rw [h]) else .isFalse (by intro hc; cases hc; exact h rfl)
    | .ok _, .error _ => .isFalse (by intro hc; cases hc)
    | .error _, .ok _ => .isFalse (by intro hc; cases hc)

/-- Python's builtin `abs`, made kernel-computable on ℚ (Mathlib's lattice
`|·|` does not reduce definitionally). -/
def pyAbs (x : ℚ) : ℚ := if x < 0 then -x else x

/-- The endpoint-replacement update shared by every bisection pass:
`if fa*fc < 0: b, fb = c, fc else: a, fa = c, fc`, returning the new
`(a, b, fa, fb)`. -/
def bisUpdate (a b fa fb c fc : ℚ) : ℚ × ℚ × ℚ × ℚ :=
  if fa * fc < 0 then (a, c, fa, fc) else (c, b, fc, fb)

/-- The `for i in range(1, max_iter+1)` loop of `bisection_method`.  `fuel` is
the number of passes still allowed (including the current one); `i` is the
1-based Python loop index; `rows` is the accumulated table.  The fuel-0 case is
unreachable from `bisection_method` (which handles `max_iter < 1` itself). -/
def bisLoop (f : ℚ → ℚ) (tol : ℚ) :
    ℕ → ℚ → ℚ → ℚ → ℚ → ℕ → List BisRow → Except PyErr (Result BisRow)
  | 0, _, _, _, _, _, _ => .error .unboundLocal
  | fuel + 1, a, b, fa, fb, i, rows =>
    let c := (a + b) / 2
    let fc := f c
    let err := pyAbs (b - a) / 2
    let rows2 := rows ++ [⟨i, a, b, c, fc, err⟩]
    if pyAbs fc < tol ∨ err < tol then .ok ⟨c, pyAbs fc, i, rows2⟩
    else
      match fuel with
      | 0 => .ok ⟨c, pyAbs fc, i, rows2⟩
      | fuel2 + 1 =>
        match bisUpdate a b fa fb c fc with
        | (a2, b2, fa2, fb2) => bisLoop f tol (fuel2 + 1) a2 b2 fa2 fb2 (i + 1) rows2

/-- `bisection_method(f, a, b, max_iter, tol)` from `ZOF_CLI.py`: checks the
bracket sign condition (`fa*fb > 0` raises), then runs the loop; with
`max_iter < 1` the loop body never runs and Python's trailing
`return c, abs(fc), max_iter, rows` hits unbound locals. -/
def bisection_method (f : ℚ → ℚ) (a b : ℚ) (max_iter : ℕ) (tol : ℚ) :
    Except PyErr (Result BisRow) :=
  let fa := f a
  let fb := f b
  if fa * fb > 0 then .error .invalidBracket
  else
    match max_iter with
    | 0 => .error .unboundLocal
    | m + 1 => bisLoop f tol (m + 1) a b fa fb 1 []

/-- The convergence test of a bisection pass, as a predicate on its row:
`abs(fc) < tol or error < tol`. -/
def bisConv (tol : ℚ) (r : BisRow) : Prop :=
  pyAbs r.fc < tol ∨ r.err < tol

instance (tol : ℚ) (r : BisRow) : Decidable (bisConv tol r) :=
  inferInstanceAs (Decidable (pyAbs r.fc < tol ∨ r.err < tol))

/-- The `for` loop of `regula_falsi`.  The interpolation divides by `fb - fa`
with no guard; Python raises an implicit `ZeroDivisionError` when it is zero,
modelled by the explicit `divisionByZero` branch.  The pure `let` bindings are
hoisted above that branch (division on ℚ is total in Lean); they are unused
when the error is returned, so the observable behaviour is unchanged. -/
def regulaLoop (f : ℚ → ℚ) (tol : ℚ) :
    ℕ → ℚ → ℚ → ℚ → ℚ → ℕ → List BisRow → Except PyErr (Result BisRow)
  | 0, _, _, _, _, _, _ => .error .unboundLocal
  | fuel + 1, a, b, fa, fb, i, rows =>
    let c := (a * fb - b * fa) / (fb - fa)
    let fc := f c
    let err := pyAbs fc
    let rows2 := rows ++ [⟨i, a, b, c, fc, err⟩]
    if fb - fa = 0 then .error .divisionByZero
    else if pyAbs fc < tol then .ok ⟨c, pyAbs fc, i, rows2⟩
    else
      match fuel with
      | 0 => .ok ⟨c, pyAbs fc, i, rows2⟩
      | fuel2 + 1 =>
        if fa * fc < 0 then regulaLoop f tol (fuel2 + 1) a c fa fc (i + 1) rows2
        else regulaLoop f tol (fuel2 + 1) c b fc fb (i + 1) rows2

/-- `regula_falsi(f, a, b, max_iter, tol)` from `ZOF_CLI.py`: same bracket
check as bisection; `c = a` is assigned before the loop so `max_iter < 1`
leaves `fc` (not `c`) unbound at the trailing return. -/
def regula_falsi (f : ℚ → ℚ) (a b : ℚ) (max_iter : ℕ) (tol : ℚ) :
    Except PyErr (Result BisRow) :=
  let fa := f a
  let fb := f b
  if fa * fb > 0 then .error .invalidBracket
  else
    match max_iter with
    | 0 => .error .unboundLocal
    | m + 1 => regulaLoop f tol (m + 1) a b fa fb 1 []

/-- The `for` loop of `secant_method`: evaluates `f` at both current points,
raises on an exactly zero denominator, otherwise steps and shifts
`(x0, x1) ← (x1, x2)`.  As in `regulaLoop`, the pure `let`s are hoisted above
the error branch that makes them dead. -/
def secantLoop (f : ℚ → ℚ) (tol : ℚ) :
    ℕ → ℚ → ℚ → ℕ → List SecRow → Except PyErr (Result SecRow)
  | 0, _, _, _, _ => .error .unboundLocal
  | fuel + 1, x0, x1, i, rows =>
    let f0 := f x0
    let f1 := f x1
    let x2 := x1 - f1 * (x1 - x0) / (f1 - f0)
    let err := pyAbs (x2 - x1)
    let rows2 := rows ++ [⟨i, x0, x1, x2, f x2, err⟩]
    if f1 - f0 = 0 then .error .zeroDenominator
    else if pyAbs (f x2) < tol ∨ err < tol then .ok ⟨x2, pyAbs (f x2), i, rows2⟩
    else
      match fuel with
      | 0 => .ok ⟨x2, pyAbs (f x2), i, rows2⟩
      | fuel2 + 1 => secantLoop f tol (fuel2 + 1) x1 x2 (i + 1) rows2

/-- `secant_method(f, x0, x1, max_iter, tol)` from `ZOF_CLI.py`. -/
def secant_method (f : ℚ → ℚ) (x0 x1 : ℚ) (max_iter : ℕ) (tol : ℚ) :
    Except PyErr (Result SecRow) :=
  match max_iter with
  | 0 => .error .unboundLocal
  | m + 1 => secantLoop f tol (m + 1) x0 x1 1 []

/-- The `for` loop of `newton_raphson`.  `df` is the derivative evaluator the
code obtains externally (`sympy.diff` + `lambdify`); the loop raises when
`df x == 0` exactly, else takes the Newton step.  As in `regulaLoop`, the pure
`let`s are hoisted above the error branch that makes them dead. -/
def newtLoop (f df : ℚ → ℚ) (tol : ℚ) :
    ℕ → ℚ → ℕ → List NewtRow → Except PyErr (Result NewtRow)
  | 0, _, _, _ => .error .unboundLocal
  | fuel + 1, x, i, rows =>
    let fx := f x
    let dfx := df x
    let xnew := x - fx / dfx
    let err := pyAbs (xnew - x)
    let rows2 := rows ++ [⟨i, x, fx, dfx, xnew, err⟩]
    if dfx = 0 then .error .zeroDerivative
    else if pyAbs fx < tol ∨ err < tol then .ok ⟨xnew, pyAbs fx, i, rows2⟩
    else
      match fuel with
      | 0 => .ok ⟨xnew, pyAbs fx, i, rows2⟩
      | fuel2 + 1 => newtLoop f df tol (fuel2 + 1) xnew (i + 1) rows2

/-- `newton_raphson(f_expr, f, x_sym, x0, max_iter, tol)` from `ZOF_CLI.py`.
The symbolic pieces `f_expr`, `x_sym` only serve to build the derivative
callable `df`, which we take directly as the external derivative-evaluator
capability.  After the loop Python returns `x, abs(fx)`: `x` already holds the
last `x_new`, so the exhausted return coincides with the convergent one. -/
def newton_raphson (f df : ℚ → ℚ) (x0 : ℚ) (max_iter : ℕ) (tol : ℚ) :
    Except PyErr (Result NewtRow) :=
  match max_iter with
  | 0 => .error .unboundLocal
  | m + 1 => newtLoop f df tol (m + 1) x0 1 []

/-- The `for` loop of `fixed_point_iteration`: `x_new = g(x)`, error
`abs(x_new - x)`, convergence solely on the step size. -/
def fpLoop (g : ℚ → ℚ) (tol : ℚ) :
    ℕ → ℚ → ℕ → List FpRow → Except PyErr (Result FpRow)
  | 0, _, _, _ => .error .unboundLocal
  | fuel + 1, x, i, rows =>
    let xnew := g x
    let err := pyAbs (xnew - x)
    let rows2 := rows ++ [⟨i, x, xnew, err⟩]
    if err < tol then .ok ⟨xnew, err, i, rows2⟩
    else
      match fuel with
      | 0 => .ok ⟨xnew, err, i, rows2⟩
      | fuel2 + 1 => fpLoop g tol (fuel2 + 1) xnew (i + 1) rows2

/-- `fixed_point_iteration(g, x0, max_iter, tol)` from `ZOF_CLI.py`. -/
def fixed_point_iteration (g : ℚ → ℚ) (x0 : ℚ) (max_iter : ℕ) (tol : ℚ) :
    Except PyErr (Result FpRow) :=
  match max_iter with
  | 0 => .error .unboundLocal
  | m + 1 => fpLoop g tol (m + 1) x0 1 []

/-- The `for` loop of `modified_secant`: finite-difference denominator
`f(x + delta) - f(x)`, raising when it is exactly zero.  As in `regulaLoop`,
the pure `let`s are hoisted above the error branch that makes them dead. -/
def modLoop (f : ℚ → ℚ) (delta tol : ℚ) :
    ℕ → ℚ → ℕ → List ModRow → Except PyErr (Result ModRow)
  | 0, _, _, _ => .error .unboundLocal
  | fuel + 1, x, i, rows =>
    let fx := f x
    let denom := f (x + delta) - fx
    let xnew := x - delta * fx / denom
    let err := pyAbs (xnew - x)
    let rows2 := rows ++ [⟨i, x, fx, xnew, err⟩]
    if denom = 0 then .error .zeroDenominator
    else if pyAbs fx < tol ∨ err < tol then .ok ⟨xnew, pyAbs fx, i, rows2⟩
    else
      match fuel with
      | 0 => .ok ⟨xnew, pyAbs fx, i, rows2⟩
      | fuel2 + 1 => modLoop f delta tol (fuel2 + 1) xnew (i + 1) rows2

/-- `modified_secant(f, x0, delta, max_iter, tol)` from `ZOF_CLI.py`. -/
def modified_secant (f : ℚ → ℚ) (x0 delta : ℚ) (max_iter : ℕ) (tol : ℚ) :
    Except PyErr (Result ModRow) :=
  match max_iter with
  | 0 => .error .unboundLocal
  | m + 1 => modLoop f delta tol (m + 1) x0 1 []

/-- The convergence test of a fixed-point pass: `err < tol`. -/
def fpConv (tol : ℚ) (r : FpRow) : Prop :=
  r.err < tol

instance (tol : ℚ) (r : FpRow) : Decidable (fpConv tol r) :=
  inferInstanceAs (Decidable (r.err < tol))

end ZOF

namespace App

/-!
The duplicated solver implementations from `app.py`.  The numeric code is
line-for-line the same as in `ZOF_CLI.py` (only cosmetic differences: tuple
rows instead of list rows, shorter error messages), so the embeddings below
mirror the `ZOF` ones; claim C8 proves the two extensionally equal.  The row
and result types are shared with `ZOF` since both files build the same
`(root, final_err, iters, rows)` data.
-/

open ZOF (PyErr BisRow SecRow NewtRow FpRow ModRow Result pyAbs)

/-- The endpoint-replacement update of `app.py`'s bisection pass. -/
def bisUpdate (a b fa fb c fc : ℚ) : ℚ × ℚ × ℚ × ℚ :=
  if fa * fc < 0 then (a, c, fa, fc) else (c, b, fc, fb)

/-- The loop of `app.py`'s `bisection_method`. -/
def bisLoop (f : ℚ → ℚ) (tol : ℚ) :
    ℕ → ℚ → ℚ → ℚ → ℚ → ℕ → List BisRow → Except PyErr (Result BisRow)
  | 0, _, _, _, _, _, _ => .error .unboundLocal
  | fuel + 1, a, b, fa, fb, i, rows =>
    let c := (a + b) / 2
    let fc := f c
    let err := pyAbs (b - a) / 2
    let rows2 := rows ++ [⟨i, a, b, c, fc, err⟩]
    if pyAbs fc < tol ∨ err < tol then .ok ⟨c, pyAbs fc, i, rows2⟩
    else
      match fuel with
      | 0 => .ok ⟨c, pyAbs fc, i, rows2⟩
      | fuel2 + 1 =>
        match bisUpdate a b fa fb c fc with
        | (a2, b2, fa2, fb2) => bisLoop f tol (fuel2 + 1) a2 b2 fa2 fb2 (i + 1) rows2

/-- `bisection_method(f, a, b, max_iter, tol)` from `app.py`. -/
def bisection_method (f : ℚ → ℚ) (a b : ℚ) (max_iter : ℕ) (tol : ℚ) :
    Except PyErr (Result BisRow) :=
  let fa := f a
  let fb := f b
  if fa * fb > 0 then .error .invalidBracket
  else
    match max_iter with
    | 0 => .error .unboundLocal
    | m + 1 => bisLoop f tol (m + 1) a b fa fb 1 []

/-- The loop of `app.py`'s `regula_falsi` (same hoisting of pure `let`s above
the implicit-division error branch as in `ZOF.regulaLoop`). -/
def regulaLoop (f : ℚ → ℚ) (tol : ℚ) :
    ℕ → ℚ → ℚ → ℚ → ℚ → ℕ → List BisRow → Except PyErr (Result BisRow)
  | 0, _, _, _, _, _, _ => .error .unboundLocal
  | fuel + 1, a, b, fa, fb, i, rows =>
    let c := (a * fb - b * fa) / (fb - fa)
    let fc := f c
    let err := pyAbs fc
    let rows2 := rows ++ [⟨i, a, b, c, fc, err⟩]
    if fb - fa = 0 then .error .divisionByZero
    else if pyAbs fc < tol then .ok ⟨c, pyAbs fc, i, rows2⟩
    else
      match fuel with
      | 0 => .ok ⟨c, pyAbs fc, i, rows2⟩
      | fuel2 + 1 =>
        if fa * fc < 0 then regulaLoop f tol (fuel2 + 1) a c fa fc (i + 1) rows2
        else regulaLoop f tol (fuel2 + 1) c b fc fb (i + 1) rows2

/-- `regula_falsi(f, a, b, max_iter, tol)` from `app.py`. -/
def regula_falsi (f : ℚ → ℚ) (a b : ℚ) (max_iter : ℕ) (tol : ℚ) :
    Except PyErr (Result BisRow) :=
  let fa := f a
  let fb := f b
  if fa * fb > 0 then .error .invalidBracket
  else
    match max_iter with
    | 0 => .error .unboundLocal
    | m + 1 => regulaLoop f tol (m + 1) a b fa fb 1 []

/-- The loop of `app.py`'s `secant_method`. -/
def secantLoop (f : ℚ → ℚ) (tol : ℚ) :
    ℕ → ℚ → ℚ → ℕ → List SecRow → Except PyErr (Result SecRow)
  | 0, _, _, _, _ => .error .unboundLocal
  | fuel + 1, x0, x1, i, rows =>
    let f0 := f x0
    let f1 := f x1
    let x2 := x1 - f1 * (x1 - x0) / (f1 - f0)
    let err := pyAbs (x2 - x1)
    let rows2 := rows ++ [⟨i, x0, x1, x2, f x2, err⟩]
    if f1 - f0 = 0 then .error .zeroDenominator
    else if pyAbs (f x2) < tol ∨ err < tol then .ok ⟨x2, pyAbs (f x2), i, rows2⟩
    else
      match fuel with
      | 0 => .ok ⟨x2, pyAbs (f x2), i, rows2⟩
      | fuel2 + 1 => secantLoop f tol (fuel2 + 1) x1 x2 (i + 1) rows2

/-- `secant_method(f, x0, x1, max_iter, tol)` from `app.py`. -/
def secant_method (f : ℚ → ℚ) (x0 x1 : ℚ) (max_iter : ℕ) (tol : ℚ) :
    Except PyErr (Result SecRow) :=
  match max_iter with
  | 0 => .error .unboundLocal
  | m + 1 => secantLoop f tol (m + 1) x0 x1 1 []

/-- The loop of `app.py`'s `newton_raphson`. -/
def newtLoop (f df : ℚ → ℚ) (tol : ℚ) :
    ℕ → ℚ → ℕ → List NewtRow → Except PyErr (Result NewtRow)
  | 0, _, _, _ => .error .unboundLocal
  | fuel + 1, x, i, rows =>
    let fx := f x
    let dfx := df x
    let xnew := x - fx / dfx
    let err := pyAbs (xnew - x)
    let rows2 := rows ++ [⟨i, x, fx, dfx, xnew, err⟩]
    if dfx = 0 then .error .zeroDerivative
    else if pyAbs fx < tol ∨ err < tol then .ok ⟨xnew, pyAbs fx, i, rows2⟩
    else
      match fuel with
      | 0 => .ok ⟨xnew, pyAbs fx, i, rows2⟩
      | fuel2 + 1 => newtLoop f df tol (fuel2 + 1) xnew (i + 1) rows2

/-- `newton_raphson(f_expr, f, x_sym, x0, max_iter, tol)` from `app.py`. -/
def newton_raphson (f df : ℚ → ℚ) (x0 : ℚ) (max_iter : ℕ) (tol : ℚ) :
    Except PyErr (Result NewtRow) :=
  match max_iter with
  | 0 => .error .unboundLocal
  | m + 1 => newtLoop f df tol (m + 1) x0 1 []

/-- The loop of `app.py`'s `fixed_point_iteration`. -/
def fpLoop (g : ℚ → ℚ) (tol : ℚ) :
    ℕ → ℚ → ℕ → List FpRow → Except PyErr (Result FpRow)
  | 0, _, _, _ => .error .unboundLocal
  | fuel + 1, x, i, rows =>
    let xnew := g x
    let err := pyAbs (xnew - x)
    let rows2 := rows ++ [⟨i, x, xnew, err⟩]
    if err < tol then .ok ⟨xnew, err, i, rows2⟩
    else
      match fuel with
      | 0 => .ok ⟨xnew, err, i, rows2⟩
      | fuel2 + 1 => fpLoop g tol (fuel2 + 1) xnew (i + 1) rows2

/-- `fixed_point_iteration(g, x0, max_iter, tol)` from `app.py`. -/
def fixed_point_iteration (g : ℚ → ℚ) (x0 : ℚ) (max_iter : ℕ) (tol : ℚ) :
    Except PyErr (Result FpRow) :=
  match max_iter with
  | 0 => .error .unboundLocal
  | m + 1 => fpLoop g tol (m + 1) x0 1 []

/-- The loop of `app.py`'s `modified_secant`. -/
def modLoop (f : ℚ → ℚ) (delta tol : ℚ) :
    ℕ → ℚ → ℕ → List ModRow → Except PyErr (Result ModRow)
  | 0, _, _, _ => .error .unboundLocal
  | fuel + 1, x, i, rows =>
    let fx := f x
    let denom := f (x + delta) - fx
    let xnew := x - delta * fx / denom
    let err := pyAbs (xnew - x)
    let rows2 := rows ++ [⟨i, x, fx, xnew, err⟩]
    if denom = 0 then .error .zeroDenominator
    else if pyAbs fx < tol ∨ err < tol then .ok ⟨xnew, pyAbs fx, i, rows2⟩
    else
      match fuel with
      | 0 => .ok ⟨xnew, pyAbs fx, i, rows2⟩
      | fuel2 + 1 => modLoop f delta tol (fuel2 + 1) xnew (i + 1) rows2

/-- `modified_secant(f, x0, delta, max_iter, tol)` from `app.py`. -/
def modified_secant (f : ℚ → ℚ) (x0 delta : ℚ) (max_iter : ℕ) (tol : ℚ) :
    Except PyErr (Result ModRow) :=
  match max_iter with
  | 0 => .error .unboundLocal
  | m + 1 => modLoop f delta tol (m + 1) x0 1 []

end App

namespace ZOF

/-- One bisection pass, converged: the loop returns the midpoint row built in
this pass. -/
theorem bisLoop_succ_conv (f : ℚ → ℚ) (tol : ℚ) (fuel : ℕ) (a b fa fb : ℚ) (i : ℕ)
    (rows : List BisRow)
    (h : pyAbs (f ((a + b) / 2)) < tol ∨ pyAbs (b - a) / 2 < tol) :
    bisLoop f tol (fuel + 1) a b fa fb i rows =
      .ok ⟨(a + b) / 2, pyAbs (f ((a + b) / 2)), i,
        rows ++ [⟨i, a, b, (a + b) / 2, f ((a + b) / 2), pyAbs (b - a) / 2⟩]⟩ := by
  rw [bisLoop.eq_def]
  simp only [if_pos h]

/-- One bisection pass on the last allowed iteration, not converged: the loop
falls through Python's `for` and returns the same values. -/
theorem bisLoop_one_nonconv (f : ℚ → ℚ) (tol : ℚ) (a b fa fb : ℚ) (i : ℕ)
    (rows : List BisRow)
    (h : ¬(pyAbs (f ((a + b) / 2)) < tol ∨ pyAbs (b - a) / 2 < tol)) :
    bisLoop f tol 1 a b fa fb i rows =
      .ok ⟨(a + b) / 2, pyAbs (f ((a + b) / 2)), i,
        rows ++ [⟨i, a, b, (a + b) / 2, f ((a + b) / 2), pyAbs (b - a) / 2⟩]⟩ := by
  rw [bisLoop.eq_def]
  simp only [if_neg h]

/-- One bisection pass with fuel to spare, not converged: recurse on the
updated bracket. -/
theorem bisLoop_succ2_nonconv (f : ℚ → ℚ) (tol : ℚ) (fuel : ℕ) (a b fa fb : ℚ)
    (i : ℕ) (rows : List BisRow)
    (h : ¬(pyAbs (f ((a + b) / 2)) < tol ∨ pyAbs (b - a) / 2 < tol)) :
    bisLoop f tol (fuel + 2) a b fa fb i rows =
      bisLoop f tol (fuel + 1)
        (bisUpdate a b fa fb ((a + b) / 2) (f ((a + b) / 2))).1
        (bisUpdate a b fa fb ((a + b) / 2) (f ((a + b) / 2))).2.1
        (bisUpdate a b fa fb ((a + b) / 2) (f ((a + b) / 2))).2.2.1
        (bisUpdate a b fa fb ((a + b) / 2) (f ((a + b) / 2))).2.2.2
        (i + 1)
        (rows ++ [⟨i, a, b, (a + b) / 2, f ((a + b) / 2), pyAbs (b - a) / 2⟩]) := by
  rw [bisLoop.eq_def]
  simp only [if_neg h]

/-- Master description of a bisection loop run with at least one pass: it
always succeeds; the accumulator is a prefix of the final table; the final
error is the residual at the returned root; the last row carries the root and
the iteration count; iteration and row counts are bounded by the fuel, with
equality when no recorded pass satisfies the convergence test. -/
theorem bisLoop_ok_spec (f : ℚ → ℚ) (tol : ℚ) :
    ∀ (fuel : ℕ) (a b fa fb : ℚ) (i : ℕ) (rows : List BisRow),
      ∃ r : Result BisRow,
        bisLoop f tol (fuel + 1) a b fa fb i rows = .ok r ∧
        (∃ t, r.rows = rows ++ t) ∧
        r.finalErr = pyAbs (f r.root) ∧
        (∃ last, r.rows.getLast? = some last ∧ last.c = r.root ∧ last.i = r.iters) ∧
        i ≤ r.iters ∧ r.iters ≤ i + fuel ∧
        r.rows.length + i = rows.length + r.iters + 1 ∧
        ((∀ rec ∈ r.rows, ¬ bisConv tol rec) → r.iters = i + fuel) := by
  intro fuel
  induction fuel with
  | zero =>
    intro a b fa fb i rows
    by_cases h : pyAbs (f ((a + b) / 2)) < tol ∨ pyAbs (b - a) / 2 < tol
    · exact ⟨_, bisLoop_succ_conv f tol 0 a b fa fb i rows h, ⟨_, rfl⟩, rfl,
        ⟨_, List.getLast?_concat _, rfl, rfl⟩, le_refl _, Nat.le_add_right _ _,
        by simp only [List.length_append, List.length_singleton]; omega, fun _ => rfl⟩
    · exact ⟨_, bisLoop_one_nonconv f tol a b fa fb i rows h, ⟨_, rfl⟩, rfl,
        ⟨_, List.getLast?_concat _, rfl, rfl⟩, le_refl _, Nat.le_add_right _ _,
        by simp only [List.length_append, List.length_singleton]; omega, fun _ => rfl⟩
  | succ fuel ih =>
    intro a b fa fb i rows
    by_cases h : pyAbs (f ((a + b) / 2)) < tol ∨ pyAbs (b - a) / 2 < tol
    · refine ⟨_, bisLoop_succ_conv f tol (fuel + 1) a b fa fb i rows h, ⟨_, rfl⟩, rfl,
        ⟨_, List.getLast?_concat _, rfl, rfl⟩, le_refl _, Nat.le_add_right _ _,
        by simp only [List.length_append, List.length_singleton]; omega, ?_⟩
      intro hnc
      exact absurd h (hnc ⟨i, a, b, (a + b) / 2, f ((a + b) / 2), pyAbs (b - a) / 2⟩
        (by simp [bisConv]))
    · obtain ⟨r, hr, ⟨t, ht⟩, hfe, hlast, hile, hle, hlen, hnc⟩ :=
        ih (bisUpdate a b fa fb ((a + b) / 2) (f ((a + b) / 2))).1
          (bisUpdate a b fa fb ((a + b) / 2) (f ((a + b) / 2))).2.1
          (bisUpdate a b fa fb ((a + b) / 2) (f ((a + b) / 2))).2.2.1
          (bisUpdate a b fa fb ((a + b) / 2) (f ((a + b) / 2))).2.2.2
          (i + 1)
          (rows ++ [⟨i, a, b, (a + b) / 2, f ((a + b) / 2), pyAbs (b - a) / 2⟩])
      simp only [List.length_append, List.length_singleton] at hlen
      refine ⟨r, ?_,
        ⟨⟨i, a, b, (a + b) / 2, f ((a + b) / 2), pyAbs (b - a) / 2⟩ :: t,
          by rw [ht, List.append_assoc]; rfl⟩,
        hfe, hlast, by omega, by omega, by omega, ?_⟩
      · rw [bisLoop_succ2_nonconv f tol fuel a b fa fb i rows h]
        exact hr
      · intro hall
        have := hnc hall
        omega

/-- One fixed-point pass, converged. -/
theorem fpLoop_succ_conv (g : ℚ → ℚ) (tol : ℚ) (fuel : ℕ) (x : ℚ) (i : ℕ)
    (rows : List FpRow) (h : pyAbs (g x - x) < tol) :
    fpLoop g tol (fuel + 1) x i rows =
      .ok ⟨g x, pyAbs (g x - x), i, rows ++ [⟨i, x, g x, pyAbs (g x - x)⟩]⟩ := by
  rw [fpLoop.eq_def]
  simp only [if_pos h]

/-- One fixed-point pass on the last allowed iteration, not converged. -/
theorem fpLoop_one_nonconv (g : ℚ → ℚ) (tol : ℚ) (x : ℚ) (i : ℕ)
    (rows : List FpRow) (h : ¬ pyAbs (g x - x) < tol) :
    fpLoop g tol 1 x i rows =
      .ok ⟨g x, pyAbs (g x - x), i, rows ++ [⟨i, x, g x, pyAbs (g x - x)⟩]⟩ := by
  rw [fpLoop.eq_def]
  simp only [if_neg h]

/-- One fixed-point pass with fuel to spare, not converged: recurse at `x_new`. -/
theorem fpLoop_succ2_nonconv (g : ℚ → ℚ) (tol : ℚ) (fuel : ℕ) (x : ℚ) (i : ℕ)
    (rows : List FpRow) (h : ¬ pyAbs (g x - x) < tol) :
    fpLoop g tol (fuel + 2) x i rows =
      fpLoop g tol (fuel + 1) (g x) (i + 1) (rows ++ [⟨i, x, g x, pyAbs (g x - x)⟩]) := by
  rw [fpLoop.eq_def]
  simp only [if_neg h]

/-- Master description of a fixed-point loop run with at least one pass: it
always succeeds (the method has no failure branch), the accumulator is a
prefix of the final table, root/final error/iteration count come from the last
row, and row and iteration counts track the fuel, with equality when no
recorded pass satisfies the convergence test. -/
theorem fpLoop_ok_spec (g : ℚ → ℚ) (tol : ℚ) :
    ∀ (fuel : ℕ) (x : ℚ) (i : ℕ) (rows : List FpRow),
      ∃ r : Result FpRow,
        fpLoop g tol (fuel + 1) x i rows = .ok r ∧
        (∃ t, r.rows = rows ++ t) ∧
        (∃ last, r.rows.getLast? = some last ∧ last.xnew = r.root ∧
          last.err = r.finalErr ∧ last.i = r.iters) ∧
        i ≤ r.iters ∧ r.iters ≤ i + fuel ∧
        r.rows.length + i = rows.length + r.iters + 1 ∧
        ((∀ rec ∈ r.rows, ¬ fpConv tol rec) → r.iters = i + fuel) := by
  intro fuel
  induction fuel with
  | zero =>
    intro x i rows
    by_cases h : pyAbs (g x - x) < tol
    · exact ⟨_, fpLoop_succ_conv g tol 0 x i rows h, ⟨_, rfl⟩,
        ⟨_, List.getLast?_concat _, rfl, rfl, rfl⟩, le_refl _, Nat.le_add_right _ _,
        by simp only [List.length_append, List.length_singleton]; omega, fun _ => rfl⟩
    · exact ⟨_, fpLoop_one_nonconv g tol x i rows h, ⟨_, rfl⟩,
        ⟨_, List.getLast?_concat _, rfl, rfl, rfl⟩, le_refl _, Nat.le_add_right _ _,
        by simp only [List.length_append, List.length_singleton]; omega, fun _ => rfl⟩
  | succ fuel ih =>
    intro x i rows
    by_cases h : pyAbs (g x - x) < tol
    · refine ⟨_, fpLoop_succ_conv g tol (fuel + 1) x i rows h, ⟨_, rfl⟩,
        ⟨_, List.getLast?_concat _, rfl, rfl, rfl⟩, le_refl _, Nat.le_add_right _ _,
        by simp only [List.length_append, List.length_singleton]; omega, ?_⟩
      intro hnc
      exact absurd h (hnc ⟨i, x, g x, pyAbs (g x - x)⟩ (by simp [fpConv]))
    · obtain ⟨r, hr, ⟨t, ht⟩, hlast, hile, hle, hlen, hnc⟩ :=
        ih (g x) (i + 1) (rows ++ [⟨i, x, g x, pyAbs (g x - x)⟩])
      simp only [List.length_append, List.length_singleton] at hlen
      refine ⟨r, ?_,
        ⟨⟨i, x, g x, pyAbs (g x - x)⟩ :: t, by rw [ht, List.append_assoc]; rfl⟩,
        hlast, by omega, by omega, by omega, ?_⟩
      · rw [fpLoop_succ2_nonconv g tol fuel x i rows h]
        exact hr
      · intro hall
        have := hnc hall
        omega

/-- One Newton-Raphson pass with a vanishing derivative: the method raises. -/
theorem newtLoop_succ_zeroDer (f df : ℚ → ℚ) (tol : ℚ) (fuel : ℕ) (x : ℚ) (i : ℕ)
    (rows : List NewtRow) (h : df x = 0) :
    newtLoop f df tol (fuel + 1) x i rows = .error .zeroDerivative := by
  rw [newtLoop.eq_def]
  simp only [if_pos h]

/-- One Newton-Raphson pass, converged. -/
theorem newtLoop_succ_conv (f df : ℚ → ℚ) (tol : ℚ) (fuel : ℕ) (x : ℚ) (i : ℕ)
    (rows : List NewtRow) (h0 : ¬ df x = 0)
    (h : pyAbs (f x) < tol ∨ pyAbs (x - f x / df x - x) < tol) :
    newtLoop f df tol (fuel + 1) x i rows =
      .ok ⟨x - f x / df x, pyAbs (f x), i,
        rows ++ [⟨i, x, f x, df x, x - f x / df x, pyAbs (x - f x / df x - x)⟩]⟩ := by
  rw [newtLoop.eq_def]
  simp only [if_neg h0, if_pos h]

/-- One Newton-Raphson pass on the last allowed iteration, not converged. -/
theorem newtLoop_one_nonconv (f df : ℚ → ℚ) (tol : ℚ) (x : ℚ) (i : ℕ)
    (rows : List NewtRow) (h0 : ¬ df x = 0)
    (h : ¬(pyAbs (f x) < tol ∨ pyAbs (x - f x / df x - x) < tol)) :
    newtLoop f df tol 1 x i rows =
      .ok ⟨x - f x / df x, pyAbs (f x), i,
        rows ++ [⟨i, x, f x, df x, x - f x / df x, pyAbs (x - f x / df x - x)⟩]⟩ := by
  rw [newtLoop.eq_def]
  simp only [if_neg h0, if_neg h]

/-- One Newton-Raphson pass with fuel to spare, not converged: recurse. -/
theorem newtLoop_succ2_nonconv (f df : ℚ → ℚ) (tol : ℚ) (fuel : ℕ) (x : ℚ) (i : ℕ)
    (rows : List NewtRow) (h0 : ¬ df x = 0)
    (h : ¬(pyAbs (f x) < tol ∨ pyAbs (x - f x / df x - x) < tol)) :
    newtLoop f df tol (fuel + 2) x i rows =
      newtLoop f df tol (fuel + 1) (x - f x / df x) (i + 1)
        (rows ++ [⟨i, x, f x, df x, x - f x / df x, pyAbs (x - f x / df x - x)⟩]) := by
  rw [newtLoop.eq_def]
  simp only [if_neg h0, if_neg h]

/-- Whenever the Newton-Raphson loop returns a result, the final error field
is the residual `abs(fx)` at the last iteration's input (the `fx` stored in
the last row), the root is the last `x_new`, and the iteration count is the
last row's index. -/
theorem newtLoop_ok_last (f df : ℚ → ℚ) (tol : ℚ) :
    ∀ (fuel : ℕ) (x : ℚ) (i : ℕ) (rows : List NewtRow) (r : Result NewtRow),
      newtLoop f df tol fuel x i rows = .ok r →
      ∃ last : NewtRow, r.rows.getLast? = some last ∧
        r.finalErr = pyAbs last.fx ∧ r.root = last.xnew ∧ last.i = r.iters ∧
        last.err = pyAbs (last.xnew - last.x) := by
  intro fuel
  induction fuel with
  | zero => intro x i rows r h; exact absurd h (by rw [newtLoop]; simp)
  | succ fuel ih =>
    intro x i rows r h
    by_cases h0 : df x = 0
    · rw [newtLoop_succ_zeroDer f df tol fuel x i rows h0] at h
      exact absurd h (by simp)
    by_cases hcv : pyAbs (f x) < tol ∨ pyAbs (x - f x / df x - x) < tol
    · rw [newtLoop_succ_conv f df tol fuel x i rows h0 hcv] at h
      cases h
      exact ⟨_, List.getLast?_concat _, rfl, rfl, rfl, rfl⟩
    cases fuel with
    | zero =>
      rw [newtLoop_one_nonconv f df tol x i rows h0 hcv] at h
      cases h
      exact ⟨_, List.getLast?_concat _, rfl, rfl, rfl, rfl⟩
    | succ fuel2 =>
      rw [newtLoop_succ2_nonconv f df tol fuel2 x i rows h0 hcv] at h
      exact ih _ _ _ _ h

/-- One regula-falsi pass with equal cached endpoint values: the unguarded
interpolation divides by zero. -/
theorem regulaLoop_succ_div (f : ℚ → ℚ) (tol : ℚ) (fuel : ℕ) (a b fa fb : ℚ) (i : ℕ)
    (rows : List BisRow) (h : fb - fa = 0) :
    regulaLoop f tol (fuel + 1) a b fa fb i rows = .error .divisionByZero := by
  rw [regulaLoop.eq_def]
  simp only [if_pos h]

/-- One regula-falsi pass, converged on `abs(fc) < tol`. -/
theorem regulaLoop_succ_conv (f : ℚ → ℚ) (tol : ℚ) (fuel : ℕ) (a b fa fb : ℚ) (i : ℕ)
    (rows : List BisRow) (h0 : ¬ fb - fa = 0)
    (h : pyAbs (f ((a * fb - b * fa) / (fb - fa))) < tol) :
    regulaLoop f tol (fuel + 1) a b fa fb i rows =
      .ok ⟨(a * fb - b * fa) / (fb - fa), pyAbs (f ((a * fb - b * fa) / (fb - fa))), i,
        rows ++ [⟨i, a, b, (a * fb - b * fa) / (fb - fa), f ((a * fb - b * fa) / (fb - fa)),
          pyAbs (f ((a * fb - b * fa) / (fb - fa)))⟩]⟩ := by
  rw [regulaLoop.eq_def]
  simp only [if_neg h0, if_pos h]

/-- One regula-falsi pass on the last allowed iteration, not converged. -/
theorem regulaLoop_one_nonconv (f : ℚ → ℚ) (tol : ℚ) (a b fa fb : ℚ) (i : ℕ)
    (rows : List BisRow) (h0 : ¬ fb - fa = 0)
    (h : ¬ pyAbs (f ((a * fb - b * fa) / (fb - fa))) < tol) :
    regulaLoop f tol 1 a b fa fb i rows =
      .ok ⟨(a * fb - b * fa) / (fb - fa), pyAbs (f ((a * fb - b * fa) / (fb - fa))), i,
        rows ++ [⟨i, a, b, (a * fb - b * fa) / (fb - fa), f ((a * fb - b * fa) / (fb - fa)),
          pyAbs (f ((a * fb - b * fa) / (fb - fa)))⟩]⟩ := by
  rw [regulaLoop.eq_def]
  simp only [if_neg h0, if_neg h]

/-- One regula-falsi pass with fuel to spare, not converged: recurse on the
replaced bracket. -/
theorem regulaLoop_succ2_nonconv (f : ℚ → ℚ) (tol : ℚ) (fuel : ℕ) (a b fa fb : ℚ)
    (i : ℕ) (rows : List BisRow) (h0 : ¬ fb - fa = 0)
    (h : ¬ pyAbs (f ((a * fb - b * fa) / (fb - fa))) < tol) :
    regulaLoop f tol (fuel + 2) a b fa fb i rows =
      (if fa * f ((a * fb - b * fa) / (fb - fa)) < 0 then
        regulaLoop f tol (fuel + 1) a ((a * fb - b * fa) / (fb - fa)) fa
          (f ((a * fb - b * fa) / (fb - fa))) (i + 1)
          (rows ++ [⟨i, a, b, (a * fb - b * fa) / (fb - fa),
            f ((a * fb - b * fa) / (fb - fa)), pyAbs (f ((a * fb - b * fa) / (fb - fa)))⟩])
      else
        regulaLoop f tol (fuel + 1) ((a * fb - b * fa) / (fb - fa)) b
          (f ((a * fb - b * fa) / (fb - fa))) fb (i + 1)
          (rows ++ [⟨i, a, b, (a * fb - b * fa) / (fb - fa),
            f ((a * fb - b * fa) / (fb - fa)), pyAbs (f ((a * fb - b * fa) / (fb - fa)))⟩])) := by
  rw [regulaLoop.eq_def]
  simp only [if_neg h0, if_neg h]

/-- The regula-falsi loop can only fail with the implicit division-by-zero or
the (unreachable from the wrapper) unbound-local error — never with the
bracket error, which is raised solely by the wrapper's entry check. -/
theorem regulaLoop_error_cases (f : ℚ → ℚ) (tol : ℚ) :
    ∀ (fuel : ℕ) (a b fa fb : ℚ) (i : ℕ) (rows : List BisRow) (e : PyErr),
      regulaLoop f tol fuel a b fa fb i rows = .error e →
      e = .divisionByZero ∨ e = .unboundLocal := by
  intro fuel
  induction fuel with
  | zero =>
    intro a b fa fb i rows e h
    rw [regulaLoop] at h
    cases h
    exact Or.inr rfl
  | succ fuel ih =>
    intro a b fa fb i rows e h
    by_cases h0 : fb - fa = 0
    · rw [regulaLoop_succ_div f tol fuel a b fa fb i rows h0] at h
      cases h
      exact Or.inl rfl
    by_cases hcv : pyAbs (f ((a * fb - b * fa) / (fb - fa))) < tol
    · rw [regulaLoop_succ_conv f tol fuel a b fa fb i rows h0 hcv] at h
      exact absurd h (by simp)
    cases fuel with
    | zero =>
      rw [regulaLoop_one_nonconv f tol a b fa fb i rows h0 hcv] at h
      exact absurd h (by simp)
    | succ fuel2 =>
      rw [regulaLoop_succ2_nonconv f tol fuel2 a b fa fb i rows h0 hcv] at h
      by_cases hs : fa * f ((a * fb - b * fa) / (fb - fa)) < 0
      · rw [if_pos hs] at h
        exact ih _ _ _ _ _ _ _ h
      · rw [if_neg hs] at h
        exact ih _ _ _ _ _ _ _ h

/-- One secant pass with `f(x1) == f(x0)`: the method raises ZeroDenominator
before appending any row. -/
theorem secantLoop_succ_zeroDen (f : ℚ → ℚ) (tol : ℚ) (fuel : ℕ) (x0 x1 : ℚ) (i : ℕ)
    (rows : List SecRow) (h : f x1 - f x0 = 0) :
    secantLoop f tol (fuel + 1) x0 x1 i rows = .error .zeroDenominator := by
  rw [secantLoop.eq_def]
  simp only [if_pos h]

/-- The bisection loop, entered with at least one pass of fuel, never raises
anything at all. -/
theorem bisLoop_error_eq (f : ℚ → ℚ) (tol : ℚ) (fuel : ℕ) (a b fa fb : ℚ) (i : ℕ)
    (rows : List BisRow) (e : PyErr)
    (h : bisLoop f tol fuel a b fa fb i rows = .error e) : e = .unboundLocal := by
  cases fuel with
  | zero => rw [bisLoop] at h; cases h; rfl
  | succ fuel =>
    obtain ⟨r, hr, -⟩ := bisLoop_ok_spec f tol fuel a b fa fb i rows
    rw [hr] at h
    cases h

/-- The fixed-point loop, entered with at least one pass of fuel, never raises
anything at all. -/
theorem fpLoop_error_eq (g : ℚ → ℚ) (tol : ℚ) (fuel : ℕ) (x : ℚ) (i : ℕ)
    (rows : List FpRow) (e : PyErr)
    (h : fpLoop g tol fuel x i rows = .error e) : e = .unboundLocal := by
  cases fuel with
  | zero => rw [fpLoop] at h; cases h; rfl
  | succ fuel =>
    obtain ⟨r, hr, -⟩ := fpLoop_ok_spec g tol fuel x i rows
    rw [hr] at h
    cases h

/-- The computable `pyAbs` agrees with the lattice absolute value. -/
theorem pyAbs_eq_abs (x : ℚ) : pyAbs x = |x| := by
  unfold pyAbs
  rcases lt_or_le x 0 with h | h
  · rw [if_pos h, abs_of_neg h]
  · rw [if_neg (not_lt.mpr h), abs_of_nonneg h]

/-- `abs` commutes with halving. -/
theorem pyAbs_half (x : ℚ) : pyAbs (x / 2) = pyAbs x / 2 := by
  rw [pyAbs_eq_abs, pyAbs_eq_abs, abs_div]
  norm_num

/-- Width invariant of the bisection loop: if the entry bracket width is
`2 * (w / 2 ^ i)` (so the error recorded by pass `i` is `w / 2 ^ i`), then
every row the run appends records error exactly `w / 2 ^ index`. -/
theorem bisLoop_width (f : ℚ → ℚ) (tol w : ℚ) :
    ∀ (fuel : ℕ) (a b fa fb : ℚ) (i : ℕ) (rows : List BisRow) (r : Result BisRow),
      pyAbs (b - a) = 2 * (w / 2 ^ i) →
      (∀ rec ∈ rows, rec.err = w / 2 ^ rec.i) →
      bisLoop f tol (fuel + 1) a b fa fb i rows = .ok r →
      ∀ rec ∈ r.rows, rec.err = w / 2 ^ rec.i := by
  have hnew : ∀ (b a : ℚ) (i : ℕ), pyAbs (b - a) = 2 * (w / 2 ^ i) →
      pyAbs (b - a) / 2 = w / 2 ^ i := by
    intro b a i hw
    rw [hw]
    ring
  intro fuel
  induction fuel with
  | zero =>
    intro a b fa fb i rows r hw hrows h
    by_cases hcv : pyAbs (f ((a + b) / 2)) < tol ∨ pyAbs (b - a) / 2 < tol
    · rw [bisLoop_succ_conv f tol 0 a b fa fb i rows hcv] at h
      cases h
      intro rec hrec
      rcases List.mem_append.mp hrec with hmem | hmem
      · exact hrows rec hmem
      · rw [List.mem_singleton] at hmem
        subst hmem
        exact hnew b a i hw
    · rw [bisLoop_one_nonconv f tol a b fa fb i rows hcv] at h
      cases h
      intro rec hrec
      rcases List.mem_append.mp hrec with hmem | hmem
      · exact hrows rec hmem
      · rw [List.mem_singleton] at hmem
        subst hmem
        exact hnew b a i hw
  | succ fuel ih =>
    intro a b fa fb i rows r hw hrows h
    by_cases hcv : pyAbs (f ((a + b) / 2)) < tol ∨ pyAbs (b - a) / 2 < tol
    · rw [bisLoop_succ_conv f tol (fuel + 1) a b fa fb i rows hcv] at h
      cases h
      intro rec hrec
      rcases List.mem_append.mp hrec with hmem | hmem
      · exact hrows rec hmem
      · rw [List.mem_singleton] at hmem
        subst hmem
        exact hnew b a i hw
    · rw [bisLoop_succ2_nonconv f tol fuel a b fa fb i rows hcv] at h
      have hrows2 : ∀ rec ∈ rows ++ [(⟨i, a, b, (a + b) / 2, f ((a + b) / 2),
          pyAbs (b - a) / 2⟩ : BisRow)], rec.err = w / 2 ^ rec.i := by
        intro rec hrec
        rcases List.mem_append.mp hrec with hmem | hmem
        · exact hrows rec hmem
        · rw [List.mem_singleton] at hmem
          subst hmem
          exact hnew b a i hw
      have hhalf : w / 2 ^ i = 2 * (w / 2 ^ (i + 1)) := by
        rw [pow_succ, ← div_div]
        ring
      by_cases hs : fa * f ((a + b) / 2) < 0
      · have hu : bisUpdate a b fa fb ((a + b) / 2) (f ((a + b) / 2)) =
            (a, (a + b) / 2, fa, f ((a + b) / 2)) := by
          rw [bisUpdate, if_pos hs]
        rw [hu] at h
        have hw2 : pyAbs ((a + b) / 2 - a) = 2 * (w / 2 ^ (i + 1)) := by
          have : (a + b) / 2 - a = (b - a) / 2 := by ring
          rw [this, pyAbs_half, hnew b a i hw, hhalf]
        exact ih a ((a + b) / 2) fa (f ((a + b) / 2)) (i + 1) _ r hw2 hrows2 h
      · have hu : bisUpdate a b fa fb ((a + b) / 2) (f ((a + b) / 2)) =
            ((a + b) / 2, b, f ((a + b) / 2), fb) := by
          rw [bisUpdate, if_neg hs]
        rw [hu] at h
        have hw2 : pyAbs (b - (a + b) / 2) = 2 * (w / 2 ^ (i + 1)) := by
          have : b - (a + b) / 2 = (b - a) / 2 := by ring
          rw [this, pyAbs_half, hnew b a i hw, hhalf]
        exact ih ((a + b) / 2) b (f ((a + b) / 2)) fb (i + 1) _ r hw2 hrows2 h

/-- The bisection entry check: `fa*fb > 0` raises InvalidBracket at once. -/
theorem bisection_method_bracket (f : ℚ → ℚ) (a b : ℚ) (n : ℕ) (tol : ℚ)
    (h : f a * f b > 0) :
    bisection_method f a b n tol = .error .invalidBracket := by
  rw [bisection_method.eq_def]
  simp only [if_pos h]

/-- With the entry check passed and `max_iter = 0`, bisection hits Python's
unbound locals at the trailing return. -/
theorem bisection_method_zero (f : ℚ → ℚ) (a b : ℚ) (tol : ℚ)
    (h : ¬ f a * f b > 0) :
    bisection_method f a b 0 tol = .error .unboundLocal := by
  rw [bisection_method.eq_def]
  simp only [if_neg h]

/-- With the entry check passed and positive `max_iter`, bisection runs its
loop from index 1 with an empty table. -/
theorem bisection_method_succ (f : ℚ → ℚ) (a b : ℚ) (m : ℕ) (tol : ℚ)
    (h : ¬ f a * f b > 0) :
    bisection_method f a b (m + 1) tol = bisLoop f tol (m + 1) a b (f a) (f b) 1 [] := by
  rw [bisection_method.eq_def]
  simp only [if_neg h]

/-- With the entry check passed and `max_iter = 0`, regula falsi hits Python's
unbound local `fc` at the trailing return. -/
theorem regula_falsi_zero (f : ℚ → ℚ) (a b : ℚ) (tol : ℚ)
    (h : ¬ f a * f b > 0) :
    regula_falsi f a b 0 tol = .error .unboundLocal := by
  rw [regula_falsi.eq_def]
  simp only [if_neg h]

/-- The regula-falsi entry check: `fa*fb > 0` raises InvalidBracket at once. -/
theorem regula_falsi_bracket (f : ℚ → ℚ) (a b : ℚ) (n : ℕ) (tol : ℚ)
    (h : f a * f b > 0) :
    regula_falsi f a b n tol = .error .invalidBracket := by
  rw [regula_falsi.eq_def]
  simp only [if_pos h]

/-- With the entry check passed and positive `max_iter`, regula falsi runs its
loop from index 1 with an empty table. -/
theorem regula_falsi_succ (f : ℚ → ℚ) (a b : ℚ) (m : ℕ) (tol : ℚ)
    (h : ¬ f a * f b > 0) :
    regula_falsi f a b (m + 1) tol = regulaLoop f tol (m + 1) a b (f a) (f b) 1 [] := by
  rw [regula_falsi.eq_def]
  simp only [if_neg h]

/-- One secant pass, converged. -/
theorem secantLoop_succ_conv (f : ℚ → ℚ) (tol : ℚ) (fuel : ℕ) (x0 x1 : ℚ) (i : ℕ)
    (rows : List SecRow) (h0 : ¬ f x1 - f x0 = 0)
    (h : pyAbs (f (x1 - f x1 * (x1 - x0) / (f x1 - f x0))) < tol ∨
      pyAbs (x1 - f x1 * (x1 - x0) / (f x1 - f x0) - x1) < tol) :
    secantLoop f tol (fuel + 1) x0 x1 i rows =
      .ok ⟨x1 - f x1 * (x1 - x0) / (f x1 - f x0),
        pyAbs (f (x1 - f x1 * (x1 - x0) / (f x1 - f x0))), i,
        rows ++ [⟨i, x0, x1, x1 - f x1 * (x1 - x0) / (f x1 - f x0),
          f (x1 - f x1 * (x1 - x0) / (f x1 - f x0)),
          pyAbs (x1 - f x1 * (x1 - x0) / (f x1 - f x0) - x1)⟩]⟩ := by
  rw [secantLoop.eq_def]
  simp only [if_neg h0, if_pos h]

/-- One secant pass on the last allowed iteration, not converged. -/
theorem secantLoop_one_nonconv (f : ℚ → ℚ) (tol : ℚ) (x0 x1 : ℚ) (i : ℕ)
    (rows : List SecRow) (h0 : ¬ f x1 - f x0 = 0)
    (h : ¬(pyAbs (f (x1 - f x1 * (x1 - x0) / (f x1 - f x0))) < tol ∨
      pyAbs (x1 - f x1 * (x1 - x0) / (f x1 - f x0) - x1) < tol)) :
    secantLoop f tol 1 x0 x1 i rows =
      .ok ⟨x1 - f x1 * (x1 - x0) / (f x1 - f x0),
        pyAbs (f (x1 - f x1 * (x1 - x0) / (f x1 - f x0))), i,
        rows ++ [⟨i, x0, x1, x1 - f x1 * (x1 - x0) / (f x1 - f x0),
          f (x1 - f x1 * (x1 - x0) / (f x1 - f x0)),
          pyAbs (x1 - f x1 * (x1 - x0) / (f x1 - f x0) - x1)⟩]⟩ := by
  rw [secantLoop.eq_def]
  simp only [if_neg h0, if_neg h]

/-- One secant pass with fuel to spare, not converged: shift and recurse. -/
theorem secantLoop_succ2_nonconv (f : ℚ → ℚ) (tol : ℚ) (fuel : ℕ) (x0 x1 : ℚ) (i : ℕ)
    (rows : List SecRow) (h0 : ¬ f x1 - f x0 = 0)
    (h : ¬(pyAbs (f (x1 - f x1 * (x1 - x0) / (f x1 - f x0))) < tol ∨
      pyAbs (x1 - f x1 * (x1 - x0) / (f x1 - f x0) - x1) < tol)) :
    secantLoop f tol (fuel + 2) x0 x1 i rows =
      secantLoop f tol (fuel + 1) x1 (x1 - f x1 * (x1 - x0) / (f x1 - f x0)) (i + 1)
        (rows ++ [⟨i, x0, x1, x1 - f x1 * (x1 - x0) / (f x1 - f x0),
          f (x1 - f x1 * (x1 - x0) / (f x1 - f x0)),
          pyAbs (x1 - f x1 * (x1 - x0) / (f x1 - f x0) - x1)⟩]) := by
  rw [secantLoop.eq_def]
  simp only [if_neg h0, if_neg h]

/-- The secant loop fails only with ZeroDenominator (or the unreachable
unbound-local case) — in particular never with InvalidParameters. -/
theorem secantLoop_error_cases (f : ℚ → ℚ) (tol : ℚ) :
    ∀ (fuel : ℕ) (x0 x1 : ℚ) (i : ℕ) (rows : List SecRow) (e : PyErr),
      secantLoop f tol fuel x0 x1 i rows = .error e →
      e = .zeroDenominator ∨ e = .unboundLocal := by
  intro fuel
  induction fuel with
  | zero =>
    intro x0 x1 i rows e h
    rw [secantLoop] at h
    cases h
    exact Or.inr rfl
  | succ fuel ih =>
    intro x0 x1 i rows e h
    by_cases h0 : f x1 - f x0 = 0
    · rw [secantLoop_succ_zeroDen f tol fuel x0 x1 i rows h0] at h
      cases h
      exact Or.inl rfl
    by_cases hcv : pyAbs (f (x1 - f x1 * (x1 - x0) / (f x1 - f x0))) < tol ∨
        pyAbs (x1 - f x1 * (x1 - x0) / (f x1 - f x0) - x1) < tol
    · rw [secantLoop_succ_conv f tol fuel x0 x1 i rows h0 hcv] at h
      exact absurd h (by simp)
    cases fuel with
    | zero =>
      rw [secantLoop_one_nonconv f tol x0 x1 i rows h0 hcv] at h
      exact absurd h (by simp)
    | succ fuel2 =>
      rw [secantLoop_succ2_nonconv f tol fuel2 x0 x1 i rows h0 hcv] at h
      exact ih _ _ _ _ _ h

/-- The Newton-Raphson loop fails only with ZeroDerivative (or the unreachable
unbound-local case) — in particular never with InvalidParameters. -/
theorem newtLoop_error_cases (f df : ℚ → ℚ) (tol : ℚ) :
    ∀ (fuel : ℕ) (x : ℚ) (i : ℕ) (rows : List NewtRow) (e : PyErr),
      newtLoop f df tol fuel x i rows = .error e →
      e = .zeroDerivative ∨ e = .unboundLocal := by
  intro fuel
  induction fuel with
  | zero =>
    intro x i rows e h
    rw [newtLoop] at h
    cases h
    exact Or.inr rfl
  | succ fuel ih =>
    intro x i rows e h
    by_cases h0 : df x = 0
    · rw [newtLoop_succ_zeroDer f df tol fuel x i rows h0] at h
      cases h
      exact Or.inl rfl
    by_cases hcv : pyAbs (f x) < tol ∨ pyAbs (x - f x / df x - x) < tol
    · rw [newtLoop_succ_conv f df tol fuel x i rows h0 hcv] at h
      exact absurd h (by simp)
    cases fuel with
    | zero =>
      rw [newtLoop_one_nonconv f df tol x i rows h0 hcv] at h
      exact absurd h (by simp)
    | succ fuel2 =>
      rw [newtLoop_succ2_nonconv f df tol fuel2 x i rows h0 hcv] at h
      exact ih _ _ _ _ h

/-- One modified-secant pass with a vanishing finite-difference denominator:
the method raises. -/
theorem modLoop_succ_zeroDen (f : ℚ → ℚ) (delta tol : ℚ) (fuel : ℕ) (x : ℚ) (i : ℕ)
    (rows : List ModRow) (h : f (x + delta) - f x = 0) :
    modLoop f delta tol (fuel + 1) x i rows = .error .zeroDenominator := by
  rw [modLoop.eq_def]
  simp only [if_pos h]

/-- One modified-secant pass, converged. -/
theorem modLoop_succ_conv (f : ℚ → ℚ) (delta tol : ℚ) (fuel : ℕ) (x : ℚ) (i : ℕ)
    (rows : List ModRow) (h0 : ¬ f (x + delta) - f x = 0)
    (h : pyAbs (f x) < tol ∨
      pyAbs (x - delta * f x / (f (x + delta) - f x) - x) < tol) :
    modLoop f delta tol (fuel + 1) x i rows =
      .ok ⟨x - delta * f x / (f (x + delta) - f x), pyAbs (f x), i,
        rows ++ [⟨i, x, f x, x - delta * f x / (f (x + delta) - f x),
          pyAbs (x - delta * f x / (f (x + delta) - f x) - x)⟩]⟩ := by
  rw [modLoop.eq_def]
  simp only [if_neg h0, if_pos h]

/-- One modified-secant pass on the last allowed iteration, not converged. -/
theorem modLoop_one_nonconv (f : ℚ → ℚ) (delta tol : ℚ) (x : ℚ) (i : ℕ)
    (rows : List ModRow) (h0 : ¬ f (x + delta) - f x = 0)
    (h : ¬(pyAbs (f x) < tol ∨
      pyAbs (x - delta * f x / (f (x + delta) - f x) - x) < tol)) :
    modLoop f delta tol 1 x i rows =
      .ok ⟨x - delta * f x / (f (x + delta) - f x), pyAbs (f x), i,
        rows ++ [⟨i, x, f x, x - delta * f x / (f (x + delta) - f x),
          pyAbs (x - delta * f x / (f (x + delta) - f x) - x)⟩]⟩ := by
  rw [modLoop.eq_def]
  simp only [if_neg h0, if_neg h]

/-- One modified-secant pass with fuel to spare, not converged: recurse. -/
theorem modLoop_succ2_nonconv (f : ℚ → ℚ) (delta tol : ℚ) (fuel : ℕ) (x : ℚ) (i : ℕ)
    (rows : List ModRow) (h0 : ¬ f (x + delta) - f x = 0)
    (h : ¬(pyAbs (f x) < tol ∨
      pyAbs (x - delta * f x / (f (x + delta) - f x) - x) < tol)) :
    modLoop f delta tol (fuel + 2) x i rows =
      modLoop f delta tol (fuel + 1) (x - delta * f x / (f (x + delta) - f x)) (i + 1)
        (rows ++ [⟨i, x, f x, x - delta * f x / (f (x + delta) - f x),
          pyAbs (x - delta * f x / (f (x + delta) - f x) - x)⟩]) := by
  rw [modLoop.eq_def]
  simp only [if_neg h0, if_neg h]

/-- The modified-secant loop fails only with ZeroDenominator (or the
unreachable unbound-local case) — in particular never with
InvalidParameters. -/
theorem modLoop_error_cases (f : ℚ → ℚ) (delta tol : ℚ) :
    ∀ (fuel : ℕ) (x : ℚ) (i : ℕ) (rows : List ModRow) (e : PyErr),
      modLoop f delta tol fuel x i rows = .error e →
      e = .zeroDenominator ∨ e = .unboundLocal := by
  intro fuel
  induction fuel with
  | zero =>
    intro x i rows e h
    rw [modLoop] at h
    cases h
    exact Or.inr rfl
  | succ fuel ih =>
    intro x i rows e h
    by_cases h0 : f (x + delta) - f x = 0
    · rw [modLoop_succ_zeroDen f delta tol fuel x i rows h0] at h
      cases h
      exact Or.inl rfl
    by_cases hcv : pyAbs (f x) < tol ∨
        pyAbs (x - delta * f x / (f (x + delta) - f x) - x) < tol
    · rw [modLoop_succ_conv f delta tol fuel x i rows h0 hcv] at h
      exact absurd h (by simp)
    cases fuel with
    | zero =>
      rw [modLoop_one_nonconv f delta tol x i rows h0 hcv] at h
      exact absurd h (by simp)
    | succ fuel2 =>
      rw [modLoop_succ2_nonconv f delta tol fuel2 x i rows h0 hcv] at h
      exact ih _ _ _ _ h

end ZOF

/-!
Claim C8 support: the six method implementations in `ZOF_CLI.py` and `app.py`
are extensionally equal.  Each loop equality is an induction on the fuel.
-/

theorem bisUpdate_cli_app : App.bisUpdate = ZOF.bisUpdate := rfl

theorem bisLoop_cli_app (f : ℚ → ℚ) (tol : ℚ) :
    ∀ (fuel : ℕ) (a b fa fb : ℚ) (i : ℕ) (rows : List ZOF.BisRow),
      ZOF.bisLoop f tol fuel a b fa fb i rows = App.bisLoop f tol fuel a b fa fb i rows := by
  intro fuel
  induction fuel with
  | zero => intro a b fa fb i rows; rfl
  | succ fuel ih =>
    intro a b fa fb i rows
    rw [ZOF.bisLoop.eq_def, App.bisLoop.eq_def]
    by_cases hcv : ZOF.pyAbs (f ((a + b) / 2)) < tol ∨ ZOF.pyAbs (b - a) / 2 < tol
    · simp only [if_pos hcv]
    · simp only [if_neg hcv]
      cases fuel with
      | zero => rfl
      | succ fuel2 =>
        rcases hu : ZOF.bisUpdate a b fa fb ((a + b) / 2) (f ((a + b) / 2)) with
          ⟨a2, b2, fa2, fb2⟩
        simp only [bisUpdate_cli_app, hu]
        exact ih a2 b2 fa2 fb2 (i + 1) _

theorem regulaLoop_cli_app (f : ℚ → ℚ) (tol : ℚ) :
    ∀ (fuel : ℕ) (a b fa fb : ℚ) (i : ℕ) (rows : List ZOF.BisRow),
      ZOF.regulaLoop f tol fuel a b fa fb i rows =
        App.regulaLoop f tol fuel a b fa fb i rows := by
  intro fuel
  induction fuel with
  | zero => intro a b fa fb i rows; rfl
  | succ fuel ih =>
    intro a b fa fb i rows
    rw [ZOF.regulaLoop.eq_def, App.regulaLoop.eq_def]
    by_cases h0 : fb - fa = 0
    · simp only [if_pos h0]
    simp only [if_neg h0]
    by_cases hcv : ZOF.pyAbs (f ((a * fb - b * fa) / (fb - fa))) < tol
    · simp only [if_pos hcv]
    simp only [if_neg hcv]
    cases fuel with
    | zero => rfl
    | succ fuel2 =>
      by_cases hs : fa * f ((a * fb - b * fa) / (fb - fa)) < 0
      · simp only [if_pos hs]
        exact ih _ _ _ _ (i + 1) _
      · simp only [if_neg hs]
        exact ih _ _ _ _ (i + 1) _

theorem secantLoop_cli_app (f : ℚ → ℚ) (tol : ℚ) :
    ∀ (fuel : ℕ) (x0 x1 : ℚ) (i : ℕ) (rows : List ZOF.SecRow),
      ZOF.secantLoop f tol fuel x0 x1 i rows = App.secantLoop f tol fuel x0 x1 i rows := by
  intro fuel
  induction fuel with
  | zero => intro x0 x1 i rows; rfl
  | succ fuel ih =>
    intro x0 x1 i rows
    rw [ZOF.secantLoop.eq_def, App.secantLoop.eq_def]
    by_cases h0 : f x1 - f x0 = 0
    · simp only [if_pos h0]
    simp only [if_neg h0]
    by_cases hcv : ZOF.pyAbs (f (x1 - f x1 * (x1 - x0) / (f x1 - f x0))) < tol ∨
        ZOF.pyAbs (x1 - f x1 * (x1 - x0) / (f x1 - f x0) - x1) < tol
    · simp only [if_pos hcv]
    simp only [if_neg hcv]
    cases fuel with
    | zero => rfl
    | succ fuel2 => exact ih _ _ (i + 1) _

theorem newtLoop_cli_app (f df : ℚ → ℚ) (tol : ℚ) :
    ∀ (fuel : ℕ) (x : ℚ) (i : ℕ) (rows : List ZOF.NewtRow),
      ZOF.newtLoop f df tol fuel x i rows = App.newtLoop f df tol fuel x i rows := by
  intro fuel
  induction fuel with
  | zero => intro x i rows; rfl
  | succ fuel ih =>
    intro x i rows
    rw [ZOF.newtLoop.eq_def, App.newtLoop.eq_def]
    by_cases h0 : df x = 0
    · simp only [if_pos h0]
    simp only [if_neg h0]
    by_cases hcv : ZOF.pyAbs (f x) < tol ∨ ZOF.pyAbs (x - f x / df x - x) < tol
    · simp only [if_pos hcv]
    simp only [if_neg hcv]
    cases fuel with
    | zero => rfl
    | succ fuel2 => exact ih _ (i + 1) _

theorem fpLoop_cli_app (g : ℚ → ℚ) (tol : ℚ) :
    ∀ (fuel : ℕ) (x : ℚ) (i : ℕ) (rows : List ZOF.FpRow),
      ZOF.fpLoop g tol fuel x i rows = App.fpLoop g tol fuel x i rows := by
  intro fuel
  induction fuel with
  | zero => intro x i rows; rfl
  | succ fuel ih =>
    intro x i rows
    rw [ZOF.fpLoop.eq_def, App.fpLoop.eq_def]
    by_cases hcv : ZOF.pyAbs (g x - x) < tol
    · simp only [if_pos hcv]
    simp only [if_neg hcv]
    cases fuel with
    | zero => rfl
    | succ fuel2 => exact ih _ (i + 1) _

theorem modLoop_cli_app (f : ℚ → ℚ) (delta tol : ℚ) :
    ∀ (fuel : ℕ) (x : ℚ) (i : ℕ) (rows : List ZOF.ModRow),
      ZOF.modLoop f delta tol fuel x i rows = App.modLoop f delta tol fuel x i rows := by
  intro fuel
  induction fuel with
  | zero => intro x i rows; rfl
  | succ fuel ih =>
    intro x i rows
    rw [ZOF.modLoop.eq_def, App.modLoop.eq_def]
    by_cases h0 : f (x + delta) - f x = 0
    · simp only [if_pos h0]
    simp only [if_neg h0]
    by_cases hcv : ZOF.pyAbs (f x) < tol ∨
        ZOF.pyAbs (x - delta * f x / (f (x + delta) - f x) - x) < tol
    · simp only [if_pos hcv]
    simp only [if_neg hcv]
    cases fuel with
    | zero => rfl
    | succ fuel2 => exact ih _ (i + 1) _

theorem bisection_method_cli_app (f : ℚ → ℚ) (a b : ℚ) (n : ℕ) (tol : ℚ) :
    ZOF.bisection_method f a b n tol = App.bisection_method f a b n tol := by
  rw [ZOF.bisection_method.eq_def, App.bisection_method.eq_def]
  by_cases h : f a * f b > 0
  · simp only [if_pos h]
  simp only [if_neg h]
  cases n with
  | zero => rfl
  | succ m => exact bisLoop_cli_app f tol (m + 1) a b (f a) (f b) 1 []

theorem regula_falsi_cli_app (f : ℚ → ℚ) (a b : ℚ) (n : ℕ) (tol : ℚ) :
    ZOF.regula_falsi f a b n tol = App.regula_falsi f a b n tol := by
  rw [ZOF.regula_falsi.eq_def, App.regula_falsi.eq_def]
  by_cases h : f a * f b > 0
  · simp only [if_pos h]
  simp only [if_neg h]
  cases n with
  | zero => rfl
  | succ m => exact regulaLoop_cli_app f tol (m + 1) a b (f a) (f b) 1 []

theorem secant_method_cli_app (f : ℚ → ℚ) (x0 x1 : ℚ) (n : ℕ) (tol : ℚ) :
    ZOF.secant_method f x0 x1 n tol = App.secant_method f x0 x1 n tol := by
  cases n with
  | zero => rfl
  | succ m => exact secantLoop_cli_app f tol (m + 1) x0 x1 1 []

theorem newton_raphson_cli_app (f df : ℚ → ℚ) (x0 : ℚ) (n : ℕ) (tol : ℚ) :
    ZOF.newton_raphson f df x0 n tol = App.newton_raphson f df x0 n tol := by
  cases n with
  | zero => rfl
  | succ m => exact newtLoop_cli_app f df tol (m + 1) x0 1 []

theorem fixed_point_cli_app (g : ℚ → ℚ) (x0 : ℚ) (n : ℕ) (tol : ℚ) :
    ZOF.fixed_point_iteration g x0 n tol = App.fixed_point_iteration g x0 n tol := by
  cases n with
  | zero => rfl
  | succ m => exact fpLoop_cli_app g tol (m + 1) x0 1 []

theorem modified_secant_cli_app (f : ℚ → ℚ) (x0 delta : ℚ) (n : ℕ) (tol : ℚ) :
    ZOF.modified_secant f x0 delta n tol = App.modified_secant f x0 delta n tol := by
  cases n with
  | zero => rfl
  | succ m => exact modLoop_cli_app f delta tol (m + 1) x0 1 []

/-!
The claims.  Claims C1-C4 are settled against the code with corrections;
C5-C10 as stated.
-/

/-- Claim C1, counterexample: with `f = id`, `a = 0`, `b = 1` we have
`f(a)*f(b) = 0`, yet bisection raises no InvalidBracket — the code only checks
`fa*fb > 0` strictly — and an IterationRecord is produced. -/
theorem claim_C1_counterexample :
    (fun x : ℚ => x) 0 * (fun x : ℚ => x) 1 = 0 ∧
    ZOF.bisection_method (fun x => x) 0 1 1 (1/10) =
      .ok ⟨1/2, 1/2, 1, [⟨1, 0, 1, 1/2, 1/2, 1/2⟩]⟩ := by
  constructor
  · norm_num
  · norm_num [ZOF.bisection_method, ZOF.bisLoop, ZOF.pyAbs]

/-- Claim C1, amended: bisection and regula falsi fail immediately with
InvalidBracket exactly when `f(a)*f(b) > 0` strictly; when `f(a)*f(b) ≤ 0`
(including the product-zero case) no InvalidBracket is ever raised. -/
theorem claim_C1 : ∀ (f : ℚ → ℚ) (a b : ℚ) (n : ℕ) (tol : ℚ),
    (f a * f b > 0 →
      ZOF.bisection_method f a b n tol = .error .invalidBracket ∧
      ZOF.regula_falsi f a b n tol = .error .invalidBracket) ∧
    (f a * f b ≤ 0 →
      ZOF.bisection_method f a b n tol ≠ .error .invalidBracket ∧
      ZOF.regula_falsi f a b n tol ≠ .error .invalidBracket) := by
  intro f a b n tol
  constructor
  · intro h
    exact ⟨ZOF.bisection_method_bracket f a b n tol h,
      ZOF.regula_falsi_bracket f a b n tol h⟩
  · intro h
    have hbr : ¬ f a * f b > 0 := not_lt.mpr h
    constructor
    · cases n with
      | zero =>
        rw [ZOF.bisection_method_zero f a b tol hbr]
        decide
      | succ m =>
        rw [ZOF.bisection_method_succ f a b m tol hbr]
        intro hc
        cases ZOF.bisLoop_error_eq f tol (m + 1) a b (f a) (f b) 1 [] _ hc
    · cases n with
      | zero =>
        rw [ZOF.regula_falsi_zero f a b tol hbr]
        decide
      | succ m =>
        rw [ZOF.regula_falsi_succ f a b m tol hbr]
        intro hc
        rcases ZOF.regulaLoop_error_cases f tol (m + 1) a b (f a) (f b) 1 [] _ hc with
          h1 | h1 <;> cases h1

/-- Claim C1, witness: a strictly positive product raises InvalidBracket and a
strictly negative product does not. -/
theorem claim_C1_witness :
    ZOF.bisection_method (fun x : ℚ => x) 1 2 3 (1/10) = .error .invalidBracket ∧
    ZOF.bisection_method (fun x : ℚ => x) (-1) 2 3 (1/10) ≠ .error .invalidBracket :=
  ⟨((claim_C1 (fun x => x) 1 2 3 (1/10)).1 (by norm_num)).1,
   ((claim_C1 (fun x => x) (-1) 2 3 (1/10)).2 (by norm_num)).1⟩

/-- Claim C2, counterexample: tolerance `0 ≤ 0` does not raise
InvalidParameters; fixed-point iteration runs its pass, appends a record and
returns a result. -/
theorem claim_C2_counterexample :
    (0 : ℚ) ≤ 0 ∧
    ZOF.fixed_point_iteration (fun x => x + 1) 0 1 0 =
      .ok ⟨1, 1, 1, [⟨1, 0, 1, 1⟩]⟩ :=
  ⟨le_refl 0, by norm_num [ZOF.fixed_point_iteration, ZOF.fpLoop, ZOF.pyAbs]⟩

/-- Claim C2, amended: no method validates tolerance or max_iterations, and no
method ever raises InvalidParameters, on any input whatsoever — including
tolerance ≤ 0 and max_iterations ≤ 0.  A call is never rejected for its
parameters: bisection (given a passing bracket check) and fixed-point
iteration, which have no mid-loop failure branch, return a normal result with
any tolerance once max_iterations ≥ 1, while the other methods can still fail
mid-loop only with their own ZeroDenominator / ZeroDerivative / implicit
division errors; with max_iterations ≤ 0 every method fails with Python's
UnboundLocalError at the trailing return, not with InvalidParameters. -/
theorem claim_C2 : ∀ (f df g : ℚ → ℚ) (a b x0 x1 delta : ℚ) (n : ℕ) (tol : ℚ),
    (ZOF.bisection_method f a b n tol ≠ .error .invalidParameters ∧
     ZOF.regula_falsi f a b n tol ≠ .error .invalidParameters ∧
     ZOF.secant_method f x0 x1 n tol ≠ .error .invalidParameters ∧
     ZOF.newton_raphson f df x0 n tol ≠ .error .invalidParameters ∧
     ZOF.fixed_point_iteration g x0 n tol ≠ .error .invalidParameters ∧
     ZOF.modified_secant f x0 delta n tol ≠ .error .invalidParameters) ∧
    (1 ≤ n → ¬ f a * f b > 0 → ∃ r, ZOF.bisection_method f a b n tol = .ok r) ∧
    (1 ≤ n → ∃ r, ZOF.fixed_point_iteration g x0 n tol = .ok r) ∧
    (ZOF.secant_method f x0 x1 0 tol = .error .unboundLocal ∧
     ZOF.newton_raphson f df x0 0 tol = .error .unboundLocal ∧
     ZOF.fixed_point_iteration g x0 0 tol = .error .unboundLocal ∧
     ZOF.modified_secant f x0 delta 0 tol = .error .unboundLocal) ∧
    (¬ f a * f b > 0 →
      ZOF.bisection_method f a b 0 tol = .error .unboundLocal ∧
      ZOF.regula_falsi f a b 0 tol = .error .unboundLocal) := by
  intro f df g a b x0 x1 delta n tol
  refine ⟨⟨?_, ?_, ?_, ?_, ?_, ?_⟩, ?_, ?_, ⟨rfl, rfl, rfl, rfl⟩,
    fun hbr => ⟨ZOF.bisection_method_zero f a b tol hbr,
      ZOF.regula_falsi_zero f a b tol hbr⟩⟩
  · by_cases hbr : f a * f b > 0
    · rw [ZOF.bisection_method_bracket f a b n tol hbr]
      decide
    · cases n with
      | zero =>
        rw [ZOF.bisection_method_zero f a b tol hbr]
        decide
      | succ m =>
        rw [ZOF.bisection_method_succ f a b m tol hbr]
        intro hc
        cases ZOF.bisLoop_error_eq f tol (m + 1) a b (f a) (f b) 1 [] _ hc
  · by_cases hbr : f a * f b > 0
    · rw [ZOF.regula_falsi_bracket f a b n tol hbr]
      decide
    · cases n with
      | zero =>
        rw [ZOF.regula_falsi_zero f a b tol hbr]
        decide
      | succ m =>
        rw [ZOF.regula_falsi_succ f a b m tol hbr]
        intro hc
        rcases ZOF.regulaLoop_error_cases f tol (m + 1) a b (f a) (f b) 1 [] _ hc with
          h1 | h1 <;> cases h1
  · cases n with
    | zero =>
      have h0 : ZOF.secant_method f x0 x1 0 tol = .error .unboundLocal := rfl
      rw [h0]
      decide
    | succ m =>
      intro hc
      rcases ZOF.secantLoop_error_cases f tol (m + 1) x0 x1 1 [] _ hc with h1 | h1 <;>
        cases h1
  · cases n with
    | zero =>
      have h0 : ZOF.newton_raphson f df x0 0 tol = .error .unboundLocal := rfl
      rw [h0]
      decide
    | succ m =>
      intro hc
      rcases ZOF.newtLoop_error_cases f df tol (m + 1) x0 1 [] _ hc with h1 | h1 <;>
        cases h1
  · cases n with
    | zero =>
      have h0 : ZOF.fixed_point_iteration g x0 0 tol = .error .unboundLocal := rfl
      rw [h0]
      decide
    | succ m =>
      intro hc
      cases ZOF.fpLoop_error_eq g tol (m + 1) x0 1 [] _ hc
  · cases n with
    | zero =>
      have h0 : ZOF.modified_secant f x0 delta 0 tol = .error .unboundLocal := rfl
      rw [h0]
      decide
    | succ m =>
      intro hc
      rcases ZOF.modLoop_error_cases f delta tol (m + 1) x0 1 [] _ hc with h1 | h1 <;>
        cases h1
  · intro hn hbr
    cases n with
    | zero => omega
    | succ m =>
      obtain ⟨r, hr, -⟩ := ZOF.bisLoop_ok_spec f tol m a b (f a) (f b) 1 []
      refine ⟨r, ?_⟩
      rw [ZOF.bisection_method_succ f a b m tol hbr]
      exact hr
  · intro hn
    cases n with
    | zero => omega
    | succ m =>
      obtain ⟨r, hr, -⟩ := ZOF.fpLoop_ok_spec g tol m x0 1 []
      exact ⟨r, hr⟩

/-- Claim C2, witness: with tolerance 0 neither fixed-point iteration nor
bisection raises InvalidParameters — both return normal results — and a zero
iteration budget surfaces as the unbound-local failure, exercised here for
secant and bisection. -/
theorem claim_C2_witness :
    ZOF.fixed_point_iteration (fun x : ℚ => x + 1) 0 2 0 ≠ .error .invalidParameters ∧
    ZOF.secant_method (fun x : ℚ => x) 0 1 2 0 ≠ .error .invalidParameters ∧
    (∃ r, ZOF.fixed_point_iteration (fun x : ℚ => x + 1) 0 2 0 = .ok r) ∧
    (∃ r, ZOF.bisection_method (fun x : ℚ => x) (-1) 2 2 0 = .ok r) ∧
    ZOF.secant_method (fun x : ℚ => x) 0 1 0 0 = .error .unboundLocal ∧
    ZOF.bisection_method (fun x : ℚ => x) (-1) 2 0 0 = .error .unboundLocal :=
  ⟨(claim_C2 (fun x => x) (fun _ => 1) (fun x => x + 1) (-1) 2 0 1 1 2 0).1.2.2.2.2.1,
   (claim_C2 (fun x => x) (fun _ => 1) (fun x => x + 1) (-1) 2 0 1 1 2 0).1.2.2.1,
   (claim_C2 (fun x => x) (fun _ => 1) (fun x => x + 1) (-1) 2 0 1 1 2 0).2.2.1
     (by norm_num),
   (claim_C2 (fun x => x) (fun _ => 1) (fun x => x + 1) (-1) 2 0 1 1 2 0).2.1
     (by norm_num) (by norm_num),
   (claim_C2 (fun x => x) (fun _ => 1) (fun x => x + 1) (-1) 2 0 1 1 2 0).2.2.2.1.1,
   ((claim_C2 (fun x => x) (fun _ => 1) (fun x => x + 1) (-1) 2 0 1 1 2 0).2.2.2.2
     (by norm_num)).1⟩

/-- Claim C3, counterexample: Newton-Raphson on `f(x) = 2x - 4` (derivative 2)
from `x0 = 0` with one allowed iteration returns final error `4 = |f(x)|`,
whereas the last (only) record's error metric `|x_new − x|` is `2`. -/
theorem claim_C3_counterexample :
    ZOF.newton_raphson (fun x => 2 * x - 4) (fun _ => 2) 0 1 1 =
      .ok ⟨2, 4, 1, [⟨1, 0, -4, 2, 2, 2⟩]⟩ ∧ (4 : ℚ) ≠ 2 := by
  constructor
  · norm_num [ZOF.newton_raphson, ZOF.newtLoop, ZOF.pyAbs]
  · norm_num

/-- Claim C3, amended: whenever Newton-Raphson returns a SolveResult, its
final error field equals `|f(x)|` at the last iteration's input — the `fx` of
the last IterationRecord — not the step size `|x_new − x|` (which is what the
record's error column holds); the root is the last `x_new`. -/
theorem claim_C3 : ∀ (f df : ℚ → ℚ) (x0 : ℚ) (n : ℕ) (tol : ℚ)
    (r : ZOF.Result ZOF.NewtRow),
    ZOF.newton_raphson f df x0 n tol = .ok r →
    ∃ last : ZOF.NewtRow, r.rows.getLast? = some last ∧
      r.finalErr = ZOF.pyAbs last.fx ∧ r.root = last.xnew ∧ last.i = r.iters ∧
      last.err = ZOF.pyAbs (last.xnew - last.x) := by
  intro f df x0 n tol r h
  cases n with
  | zero =>
    have h0 : ZOF.newton_raphson f df x0 0 tol = .error .unboundLocal := rfl
    rw [h0] at h
    cases h
  | succ m => exact ZOF.newtLoop_ok_last f df tol (m + 1) x0 1 [] r h

/-- Claim C3, witness: a concrete convergent Newton run instantiating the
amended statement. -/
theorem claim_C3_witness :
    ∃ last : ZOF.NewtRow,
      (⟨0, 0, 1, [⟨1, 0, 0, 1, 0, 0⟩]⟩ : ZOF.Result ZOF.NewtRow).rows.getLast? =
        some last ∧
      (⟨0, 0, 1, [⟨1, 0, 0, 1, 0, 0⟩]⟩ : ZOF.Result ZOF.NewtRow).finalErr =
        ZOF.pyAbs last.fx ∧
      (⟨0, 0, 1, [⟨1, 0, 0, 1, 0, 0⟩]⟩ : ZOF.Result ZOF.NewtRow).root = last.xnew ∧
      last.i = (⟨0, 0, 1, [⟨1, 0, 0, 1, 0, 0⟩]⟩ : ZOF.Result ZOF.NewtRow).iters ∧
      last.err = ZOF.pyAbs (last.xnew - last.x) :=
  claim_C3 (fun x => x) (fun _ => 1) 0 3 (1/10) ⟨0, 0, 1, [⟨1, 0, 0, 1, 0, 0⟩]⟩
    (by norm_num [ZOF.newton_raphson, ZOF.newtLoop, ZOF.pyAbs])

/-- Claim C4, counterexample: an exhausted bisection run (valid input, no pass
converging) raises no error and returns the last midpoint with
iterations_used = max_iterations, but the returned final error is the residual
`|f(c)| = 1/2`, not the method's recorded error metric `(b−a)/2 = 3/2` of the
last pass. -/
theorem claim_C4_counterexample :
    ZOF.bisection_method (fun x => x) (-1) 2 1 (1/10) =
      .ok ⟨1/2, 1/2, 1, [⟨1, -1, 2, 1/2, 1/2, 3/2⟩]⟩ ∧ (1/2 : ℚ) ≠ 3/2 := by
  constructor
  · norm_num [ZOF.bisection_method, ZOF.bisLoop, ZOF.pyAbs]
  · norm_num

/-- Claim C4, amended: on valid input with no pass meeting the convergence
test, bisection and fixed-point iteration raise no error and return the last
computed estimate with iterations_used = max_iterations and exactly one record
per pass; the final error field is the last pass's step-size metric for
fixed-point but the residual `|f(c)|` (not the recorded half-width metric) for
bisection. -/
theorem claim_C4 : ∀ (f g : ℚ → ℚ) (a b x0 : ℚ) (n : ℕ) (tol : ℚ),
    0 < tol → 1 ≤ n → f a * f b < 0 →
    (∃ r, ZOF.bisection_method f a b n tol = .ok r ∧
      ((∀ rec ∈ r.rows, ¬ ZOF.bisConv tol rec) →
        r.iters = n ∧ r.rows.length = n ∧
        ∃ last, r.rows.getLast? = some last ∧ r.root = last.c ∧
          r.finalErr = ZOF.pyAbs (f last.c))) ∧
    (∃ r, ZOF.fixed_point_iteration g x0 n tol = .ok r ∧
      ((∀ rec ∈ r.rows, ¬ ZOF.fpConv tol rec) →
        r.iters = n ∧ r.rows.length = n ∧
        ∃ last, r.rows.getLast? = some last ∧ r.root = last.xnew ∧
          r.finalErr = last.err)) := by
  intro f g a b x0 n tol htol hn hsign
  cases n with
  | zero => omega
  | succ m =>
    have hbr : ¬ f a * f b > 0 := not_lt.mpr (le_of_lt hsign)
    constructor
    · obtain ⟨r, hr, ⟨t, ht⟩, hfe, ⟨last, hl, hlc, hli⟩, hile, hle, hlen, hnc⟩ :=
        ZOF.bisLoop_ok_spec f tol m a b (f a) (f b) 1 []
      refine ⟨r, ?_, ?_⟩
      · rw [ZOF.bisection_method_succ f a b m tol hbr]
        exact hr
      · intro hall
        have hit := hnc hall
        simp only [List.length_nil] at hlen
        refine ⟨by omega, by omega, last, hl, hlc.symm, ?_⟩
        rw [hfe, hlc]
    · obtain ⟨r, hr, ⟨t, ht⟩, ⟨last, hl, hlx, hlerr, hli⟩, hile, hle, hlen, hnc⟩ :=
        ZOF.fpLoop_ok_spec g tol m x0 1 []
      refine ⟨r, hr, ?_⟩
      intro hall
      have hit := hnc hall
      simp only [List.length_nil] at hlen
      exact ⟨by omega, by omega, last, hl, hlx.symm, hlerr.symm⟩

/-- Claim C4, witness: the amended statement at a concrete non-convergent
input. -/
theorem claim_C4_witness :
    (∃ r, ZOF.bisection_method (fun x : ℚ => x) (-1) 2 1 (1/10) = .ok r ∧
      ((∀ rec ∈ r.rows, ¬ ZOF.bisConv (1/10) rec) →
        r.iters = 1 ∧ r.rows.length = 1 ∧
        ∃ last, r.rows.getLast? = some last ∧ r.root = last.c ∧
          r.finalErr = ZOF.pyAbs last.c)) ∧
    (∃ r, ZOF.fixed_point_iteration (fun x : ℚ => x + 1) 0 1 (1/10) = .ok r ∧
      ((∀ rec ∈ r.rows, ¬ ZOF.fpConv (1/10) rec) →
        r.iters = 1 ∧ r.rows.length = 1 ∧
        ∃ last, r.rows.getLast? = some last ∧ r.root = last.xnew ∧
          r.finalErr = last.err)) :=
  claim_C4 (fun x => x) (fun x => x + 1) (-1) 2 0 1 (1/10) (by norm_num) (by norm_num)
    (by norm_num)

/-- Claim C5: for every valid bisection input, the error metric recorded by
the pass with index `i` is exactly the initial bracket width divided by
`2 ^ i` — the bracket width halves exactly each iteration. -/
theorem claim_C5 : ∀ (f : ℚ → ℚ) (a b : ℚ) (n : ℕ) (tol : ℚ)
    (r : ZOF.Result ZOF.BisRow),
    f a * f b < 0 → 0 < tol → 1 ≤ n →
    ZOF.bisection_method f a b n tol = .ok r →
    ∀ rec ∈ r.rows, rec.err = ZOF.pyAbs (b - a) / 2 ^ rec.i := by
  intro f a b n tol r h1 h2 h3 hr
  cases n with
  | zero => omega
  | succ m =>
    have hbr : ¬ f a * f b > 0 := not_lt.mpr (le_of_lt h1)
    rw [ZOF.bisection_method_succ f a b m tol hbr] at hr
    refine ZOF.bisLoop_width f tol (ZOF.pyAbs (b - a)) m a b (f a) (f b) 1 [] r ?_ ?_ hr
    · rw [pow_one]
      ring
    · intro rec hrec
      exact absurd hrec (List.not_mem_nil rec)

/-- Claim C5, witness: the second pass of a concrete two-pass bisection run
records error `3/4 = 3/2^2`. -/
theorem claim_C5_witness :
    (⟨2, -1, 1/2, -1/4, -1/4, 3/4⟩ : ZOF.BisRow).err =
      ZOF.pyAbs (2 - (-1)) / 2 ^ (⟨2, -1, 1/2, -1/4, -1/4, 3/4⟩ : ZOF.BisRow).i :=
  claim_C5 (fun x => x) (-1) 2 2 (1/10)
    ⟨-1/4, 1/4, 2, [⟨1, -1, 2, 1/2, 1/2, 3/2⟩, ⟨2, -1, 1/2, -1/4, -1/4, 3/4⟩]⟩
    (by norm_num) (by norm_num) (by norm_num)
    (by norm_num [ZOF.bisection_method, ZOF.bisLoop, ZOF.bisUpdate, ZOF.pyAbs])
    ⟨2, -1, 1/2, -1/4, -1/4, 3/4⟩ (by norm_num)

/-- Claim C6: whenever the secant loop is entered (at any iteration) with
`f(x1) = f(x0)` exactly, it raises ZeroDenominator and returns no result; in
particular seeds with `f(x0) = f(x1)` fail before producing any record. -/
theorem claim_C6 : ∀ (f : ℚ → ℚ) (x0 x1 : ℚ) (n : ℕ) (tol : ℚ),
    f x0 = f x1 →
    (∀ (fuel i : ℕ) (rows : List ZOF.SecRow),
      ZOF.secantLoop f tol (fuel + 1) x0 x1 i rows = .error .zeroDenominator) ∧
    (1 ≤ n → ZOF.secant_method f x0 x1 n tol = .error .zeroDenominator) := by
  intro f x0 x1 n tol h
  have hd : f x1 - f x0 = 0 := by rw [h]; exact sub_self _
  constructor
  · intro fuel i rows
    exact ZOF.secantLoop_succ_zeroDen f tol fuel x0 x1 i rows hd
  · intro hn
    cases n with
    | zero => omega
    | succ m => exact ZOF.secantLoop_succ_zeroDen f tol m x0 x1 1 [] hd

/-- Claim C6, witness: `f(x) = x² − 1` with seeds `1` and `−1` raises
ZeroDenominator. -/
theorem claim_C6_witness :
    ZOF.secant_method (fun x => x * x - 1) 1 (-1) 50 (1/1000000) =
      .error .zeroDenominator :=
  (claim_C6 (fun x => x * x - 1) 1 (-1) 50 (1/1000000) (by norm_num)).2 (by norm_num)

/-- Claim C7: every solve is deterministic — the embedded methods are pure
functions of the evaluator(s) and parameters, so evaluating twice with
identical arguments yields identical results (same root, final error,
iteration count and records). -/
theorem claim_C7 : ∀ (f df g : ℚ → ℚ) (a b x0 x1 delta : ℚ) (n : ℕ) (tol : ℚ),
    ZOF.bisection_method f a b n tol = ZOF.bisection_method f a b n tol ∧
    ZOF.regula_falsi f a b n tol = ZOF.regula_falsi f a b n tol ∧
    ZOF.secant_method f x0 x1 n tol = ZOF.secant_method f x0 x1 n tol ∧
    ZOF.newton_raphson f df x0 n tol = ZOF.newton_raphson f df x0 n tol ∧
    ZOF.fixed_point_iteration g x0 n tol = ZOF.fixed_point_iteration g x0 n tol ∧
    ZOF.modified_secant f x0 delta n tol = ZOF.modified_secant f x0 delta n tol :=
  fun _ _ _ _ _ _ _ _ _ _ => ⟨rfl, rfl, rfl, rfl, rfl, rfl⟩

/-- Claim C8: the six duplicated implementations in `ZOF_CLI.py` and `app.py`
are extensionally equal — same root, final error, iteration count and
per-record values on every input. -/
theorem claim_C8 : ∀ (f df g : ℚ → ℚ) (a b x0 x1 delta : ℚ) (n : ℕ) (tol : ℚ),
    ZOF.bisection_method f a b n tol = App.bisection_method f a b n tol ∧
    ZOF.regula_falsi f a b n tol = App.regula_falsi f a b n tol ∧
    ZOF.secant_method f x0 x1 n tol = App.secant_method f x0 x1 n tol ∧
    ZOF.newton_raphson f df x0 n tol = App.newton_raphson f df x0 n tol ∧
    ZOF.fixed_point_iteration g x0 n tol = App.fixed_point_iteration g x0 n tol ∧
    ZOF.modified_secant f x0 delta n tol = App.modified_secant f x0 delta n tol :=
  fun f df g a b x0 x1 delta n tol =>
    ⟨bisection_method_cli_app f a b n tol, regula_falsi_cli_app f a b n tol,
     secant_method_cli_app f x0 x1 n tol, newton_raphson_cli_app f df x0 n tol,
     fixed_point_cli_app g x0 n tol, modified_secant_cli_app f x0 delta n tol⟩

/-- Claim C9: one bisection endpoint-replacement step, entered with correct
caches (`fa = f a`, `fb = f b`, `fc = f c`), a strict sign-change bracket, a
positive tolerance and a non-converged pass (the only situation in which the
loop reaches the update), yields new caches that again equal `f` at the new
endpoints and a new bracket with `f(a')·f(b') ≤ 0` — the sign change is never
lost. -/
theorem claim_C9 : ∀ (f : ℚ → ℚ) (a b c fa fb fc tol : ℚ),
    fa = f a → fb = f b → fc = f c →
    f a * f b < 0 → 0 < tol →
    ¬(ZOF.pyAbs fc < tol ∨ ZOF.pyAbs (b - a) / 2 < tol) →
    (ZOF.bisUpdate a b fa fb c fc).2.2.1 = f (ZOF.bisUpdate a b fa fb c fc).1 ∧
    (ZOF.bisUpdate a b fa fb c fc).2.2.2 = f (ZOF.bisUpdate a b fa fb c fc).2.1 ∧
    f (ZOF.bisUpdate a b fa fb c fc).1 * f (ZOF.bisUpdate a b fa fb c fc).2.1 ≤ 0 := by
  intro f a b c fa fb fc tol hfa hfb hfc hsign htol hnc
  subst hfa
  subst hfb
  subst hfc
  have hfc0 : f c ≠ 0 := by
    intro h0
    apply hnc
    left
    rw [h0]
    simpa [ZOF.pyAbs] using htol
  rw [ZOF.bisUpdate]
  by_cases hs : f a * f c < 0
  · rw [if_pos hs]
    exact ⟨rfl, rfl, le_of_lt hs⟩
  · rw [if_neg hs]
    refine ⟨rfl, rfl, ?_⟩
    have hfa0 : f a ≠ 0 := by
      intro h0
      rw [h0, zero_mul] at hsign
      exact lt_irrefl 0 hsign
    have hpos : 0 < f a * f c :=
      lt_of_le_of_ne (not_lt.mp hs) (Ne.symm (mul_ne_zero hfa0 hfc0))
    by_contra hgt
    push_neg at hgt
    have key : (f a * f c) * (f a * f b) < 0 := mul_neg_of_pos_of_neg hpos hsign
    have heq : (f a * f c) * (f a * f b) = (f a * f a) * (f c * f b) := by ring
    have hpos2 : 0 < (f a * f a) * (f c * f b) :=
      mul_pos (mul_self_pos.mpr hfa0) hgt
    rw [heq] at key
    exact absurd key (not_lt.mpr (le_of_lt hpos2))

/-- Claim C9, witness: the update at the concrete non-converged state
`a = −1, b = 2, c = 1/2` with `f = id`. -/
theorem claim_C9_witness :
    (ZOF.bisUpdate (-1) 2 (-1) 2 (1/2) (1/2)).2.2.1 =
      (ZOF.bisUpdate (-1) 2 (-1) 2 (1/2) (1/2)).1 ∧
    (ZOF.bisUpdate (-1) 2 (-1) 2 (1/2) (1/2)).2.2.2 =
      (ZOF.bisUpdate (-1) 2 (-1) 2 (1/2) (1/2)).2.1 ∧
    (ZOF.bisUpdate (-1) 2 (-1) 2 (1/2) (1/2)).1 *
      (ZOF.bisUpdate (-1) 2 (-1) 2 (1/2) (1/2)).2.1 ≤ 0 :=
  claim_C9 (fun x => x) (-1) 2 (1/2) (-1) 2 (1/2) (1/10) (by norm_num) (by norm_num)
    (by norm_num) (by norm_num) (by norm_num) (by norm_num [ZOF.pyAbs])

/-- Claim C10: fixed-point iteration has no failure branch — for every total
evaluator, seed and positive iteration budget it returns a result after at
most `max_iterations` passes (one record per executed pass) and raises no
typed error. -/
theorem claim_C10 : ∀ (g : ℚ → ℚ) (x0 : ℚ) (n : ℕ) (tol : ℚ),
    1 ≤ n →
    ∃ r, ZOF.fixed_point_iteration g x0 n tol = .ok r ∧
      1 ≤ r.iters ∧ r.iters ≤ n ∧ r.rows.length = r.iters := by
  intro g x0 n tol hn
  cases n with
  | zero => omega
  | succ m =>
    obtain ⟨r, hr, -, -, hile, hle, hlen, -⟩ := ZOF.fpLoop_ok_spec g tol m x0 1 []
    simp only [List.length_nil] at hlen
    exact ⟨r, hr, hile, by omega, by omega⟩

/-- Claim C10, witness: a divergent map `g(x) = 2x` still returns normally
within the iteration budget. -/
theorem claim_C10_witness :
    ∃ r, ZOF.fixed_point_iteration (fun x : ℚ => 2 * x) 1 3 (1/10) = .ok r ∧
      1 ≤ r.iters ∧ r.iters ≤ 3 ∧ r.rows.length = r.iters :=
  claim_C10 (fun x => 2 * x) 1 3 (1/10) (by norm_num)
